import Mathlib

/-!
Shallow embedding of the gql-drift schema-to-registry-to-query pipeline
(src/core/flatten.ts, query-builder.ts, mutation-builder.ts, registry.ts,
introspection.ts, drift.ts) together with the theorems settling the frozen
claims about it.

JavaScript runtime values are modelled by `JVal`; plain JS objects are
association lists of own properties in insertion order (`Obj`).  Property
reads consult own properties only (the code only ever touches data that came
out of `JSON.parse`d GraphQL responses or rows built by this library, so the
prototype chain never carries relevant data).  Assigning a property on a
non-object primitive throws a `TypeError` in strict-mode ESM, so the one
place where the source can do that (`unflatten` on a primitive parent) is
modelled with `Except`.
-/

set_option maxRecDepth 4000

namespace GqlDrift

/-- A JavaScript runtime value, as far as this pipeline observes it:
`undefined` and `null` are distinct, objects are own-property association
lists in insertion order. -/
inductive JVal where
  | undef : JVal
  | null : JVal
  | str : String → JVal
  | num : Int → JVal
  | bool : Bool → JVal
  | obj : List (String × JVal) → JVal

/-- A plain JS object: own properties in insertion order. -/
abbrev Obj := List (String × JVal)

/-- Property read `o[k]`: the value of the first entry named `k`, or
`undefined` when no such own property exists. -/
def getProp (o : Obj) (k : String) : JVal :=
  match o.find? (fun p => p.1 = k) with
  | some p => p.2
  | none => JVal.undef

/-- The `k in o` test (restricted to own properties). A property stored with
value `undefined` still counts as present, exactly as in JS. -/
def hasProp (o : Obj) (k : String) : Bool :=
  o.any (fun p => p.1 = k)

/-- Property write `o[k] = v`: overwrite in place when the key exists,
append otherwise (JS insertion-order semantics). -/
def setProp : Obj → String → JVal → Obj
  | [], k, v => [(k, v)]
  | (k', v') :: rest, k, v =>
    if k' = k then (k', v) :: rest else (k', v') :: setProp rest k v

/-- Drop every own property named `k` (used to state that a function does
not depend on a particular property of its input). -/
def removeProp (o : Obj) (k : String) : Obj :=
  o.filter (fun p => p.1 ≠ k)

/-- JS `value == null`: true for both `null` and `undefined`. -/
def isNullish : JVal → Bool
  | JVal.undef => true
  | JVal.null => true
  | _ => false

/-- View a value as an object; non-objects have no own properties. -/
def asObj : JVal → Obj
  | JVal.obj o => o
  | _ => []

/-- Property read on an arbitrary value: own properties of objects;
`undefined` on every primitive. -/
def getField (v : JVal) (k : String) : JVal :=
  match v with
  | JVal.obj o => getProp o k
  | _ => JVal.undef

/-- A value on which `??= \x7b\x7d` would leave an object in place or install a
fresh one: an object, `null`, or `undefined`. Anything else would make the
subsequent property assignment throw. -/
def objOrNullishB : JVal → Bool
  | JVal.obj _ => true
  | JVal.null => true
  | JVal.undef => true
  | _ => false

/- ### Character-level string helpers

The source splits paths with `indexOf(".")`/`slice` and `split(".")`.  Both
are modelled by structural recursion on the character list, which has exactly
the JS semantics for these two operations. -/

/-- Split a character list at the first `'.'`: `none` when there is no dot,
otherwise the characters before it and all characters after it. -/
def breakAtDot : List Char → Option (List Char × List Char)
  | [] => none
  | c :: rest =>
    if c = '.' then some ([], rest)
    else
      match breakAtDot rest with
      | none => none
      | some p => some (c :: p.1, p.2)

/-- Model of `path.indexOf(".")` followed by the two `slice`s of the source: `none`
when the path has no dot, otherwise the parent segment (before the first
dot) and everything after the first dot. -/
def splitFirstDot (s : String) : Option (String × String) :=
  match breakAtDot s.data with
  | none => none
  | some p => some (String.mk p.1, String.mk p.2)

/-- Model of `split(".")` on a character list: the (nonempty) list of dot-free
segments, JS semantics (`"" → [""]`, `"a." → ["a", ""]`). -/
def splitOnDotChars : List Char → List (List Char)
  | [] => [[]]
  | c :: rest =>
    if c = '.' then [] :: splitOnDotChars rest
    else
      match splitOnDotChars rest with
      | [] => [[c]]
      | p :: ps => (c :: p) :: ps

/-- Model of `path.split(".")`. -/
def splitOnDot (s : String) : List String :=
  (splitOnDotChars s.data).map String.mk

/-- Model of `s.charAt(0).toUpperCase() + s.slice(1)` (shared by registry.ts's
`capitalize` and the inline capitalization in the mutation/query builders). -/
def capitalize (s : String) : String :=
  match s.data with
  | [] => ""
  | c :: rest => String.mk (c.toUpper :: rest)

/-- A path with at most one dot (the only shape the selection grouping and
`unflatten` fully support). -/
def oneDotAtMostB (p : String) : Bool :=
  match splitFirstDot p with
  | none => true
  | some q => (splitFirstDot q.2).isNone

/-- The segment before the first dot (the whole path when dotless): the
top-level key `unflatten` writes this path under. -/
def headSegment (p : String) : String :=
  match splitFirstDot p with
  | none => p
  | some q => q.1

/- ### Field definitions (src/core/types.ts) -/

/-- Simplified scalar type for formatting and validation. -/
inductive FieldType where
  | string : FieldType
  | number : FieldType
  | date : FieldType
  | boolean : FieldType
  | enum : FieldType
deriving DecidableEq, Repr

/-- A single field definition used throughout the pipeline. -/
structure FieldDefinition where
  key : String
  label : String
  graphqlPath : String
  type : FieldType
  enumValues : Option (List String) := none
deriving DecidableEq, Repr

/- ### flatten / unflatten (src/core/flatten.ts) -/

/-- The per-field walk of `flatten`: follow the path one segment at a time;
when the current value is `== null` the remaining walk short-circuits and
the result is `undefined`. -/
def walkPath : JVal → List String → JVal
  | v, [] => v
  | v, p :: rest =>
    if isNullish v then JVal.undef else walkPath (getField v p) rest

/-- The `for (const field of fields)` loop of `flatten`. -/
def flattenFold (data : Obj) : List FieldDefinition → Obj → Obj
  | [], row => row
  | f :: rest, row =>
    flattenFold data rest
      (setProp row f.key (walkPath (JVal.obj data) (splitOnDot f.graphqlPath)))

/-- Model of `flatten(data, fields)`: copy `id` through when present, then assign
each field's flat key from the walk of its `graphqlPath`. -/
def flatten (data : Obj) (fields : List FieldDefinition) : Obj :=
  flattenFold data fields
    (if hasProp data "id" then setProp [] "id" (getProp data "id") else [])

/-- The nested-field assignment of `unflatten`:
`result[parent] ??= \x7b\x7d; result[parent][child] = v`.  When `result[parent]`
holds a non-null primitive the property assignment throws a strict-mode
`TypeError`. -/
def unflattenAssign (result : Obj) (par child : String) (v : JVal) : Except String Obj :=
  match getProp result par with
  | JVal.obj o => Except.ok (setProp result par (JVal.obj (setProp o child v)))
  | JVal.undef => Except.ok (setProp result par (JVal.obj [(child, v)]))
  | JVal.null => Except.ok (setProp result par (JVal.obj [(child, v)]))
  | _ => Except.error ("TypeError: cannot create property \"" ++ child ++ "\"")

/-- One iteration of the `unflatten` loop. -/
def unflattenStep (flatData : Obj) (result : Obj) (f : FieldDefinition) :
    Except String Obj :=
  if hasProp flatData f.key then
    match splitFirstDot f.graphqlPath with
    | none => Except.ok (setProp result f.graphqlPath (getProp flatData f.key))
    | some q => unflattenAssign result q.1 q.2 (getProp flatData f.key)
  else Except.ok result

/-- The `for (const field of fields)` loop of `unflatten`. -/
def unflattenFold (flatData : Obj) : List FieldDefinition → Obj → Except String Obj
  | [], result => Except.ok result
  | f :: rest, result =>
    match unflattenStep flatData result f with
    | Except.ok r => unflattenFold flatData rest r
    | Except.error e => Except.error e

/-- Model of `unflatten(flatData, fields)`. -/
def unflattenE (flatData : Obj) (fields : List FieldDefinition) : Except String Obj :=
  unflattenFold flatData fields []

/- ### Selection-set builder (src/core/query-builder.ts) -/

/-- JS `Array.join(sep)`. -/
def joinSep (sep : String) : List String → String
  | [] => ""
  | [x] => x
  | x :: rest => x ++ sep ++ joinSep sep rest

/-- Record a child under its parent in the `nested` map: append to the
existing group when the parent was already seen, otherwise append a fresh
group at the end (JS `Map` insertion-order semantics). -/
def mapInsert : List (String × List String) → String → String → List (String × List String)
  | [], par, child => [(par, [child])]
  | (q, cs) :: rest, par, child =>
    if q = par then (q, cs ++ [child]) :: rest
    else (q, cs) :: mapInsert rest par child

/-- One iteration of the `buildSelectionSet` loop over `paths`. -/
def selStep (acc : List String × List (String × List String)) (path : String) :
    List String × List (String × List String) :=
  match splitFirstDot path with
  | none => (acc.1 ++ [path], acc.2)
  | some q => (acc.1, mapInsert acc.2 q.1 q.2)

/-- Render one nested group as `parent \x7b child1 child2 ... \x7d`. -/
def renderGroup (g : String × List String) : String :=
  g.1 ++ " \x7b " ++ joinSep " " g.2 ++ " \x7d"

/-- Model of `buildSelectionSet(paths)`: root (dotless) paths in encounter order,
then one rendered group per parent in first-seen order. -/
def buildSelectionSet (paths : List String) : List String :=
  let acc := paths.foldl selStep ([], [])
  acc.1 ++ acc.2.map renderGroup

/- ### Introspection metadata and gateway (src/core/introspection.ts)

The network gateway is modelled by its observable behaviour: a schema is a
partial map from type names to introspection results, and `introspectType`
fails with the source's message when the lookup misses (a GraphQL `__type`
query returning `null` for an unknown type). -/

/-- An `enumValues` entry `\x7b name \x7d`. -/
structure EnumValue where
  name : String
deriving DecidableEq, Repr

/-- A (possibly wrapped) introspection type node. -/
inductive IntrospectionType where
  | mk (name : Option String) (kind : String) (ofType : Option IntrospectionType)
      (enumValues : Option (List EnumValue))

/-- The `name` component. -/
def IntrospectionType.name : IntrospectionType → Option String
  | mk n _ _ _ => n

/-- The `kind` component. -/
def IntrospectionType.kind : IntrospectionType → String
  | mk _ k _ _ => k

/-- The `enumValues` component. -/
def IntrospectionType.enumValues : IntrospectionType → Option (List EnumValue)
  | mk _ _ _ e => e

/-- A single field from introspection. -/
structure IntrospectionField where
  name : String
  type : IntrospectionType

/-- Result of introspecting a GraphQL type. -/
structure IntrospectionResult where
  name : String
  fields : List IntrospectionField

/-- A schema as observed through the introspection transport: which type
names introspect successfully, and to what. -/
def Schema := String → Option IntrospectionResult

/-- Model of `unwrapType`: follow `ofType` while the kind is NON_NULL or LIST; stop
when the node is no wrapper or has no `ofType`. -/
def unwrapType : IntrospectionType → IntrospectionType
  | IntrospectionType.mk n k o e =>
    if k = "NON_NULL" ∨ k = "LIST" then
      match o with
      | none => IntrospectionType.mk n k o e
      | some inner => unwrapType inner
    else IntrospectionType.mk n k o e

/-- Model of `introspectType(typeName, config)`: the metadata for the type, or the
source's descriptive error when the schema has no such type. -/
def introspectTypeM (schema : Schema) (typeName : String) :
    Except String IntrospectionResult :=
  match schema typeName with
  | some t => Except.ok t
  | none =>
    Except.error ("Type \"" ++ typeName ++
      "\" not found in schema. Check that the type name is correct and introspection is enabled.")

/-- Model of `discoverMutations(typeName, config)`: look for `updateX`, `createX`,
`deleteX` on the Mutation root; any failure to introspect the root is
replaced by the descriptive discovery error. -/
def discoverMutations (schema : Schema) (typeName : String) :
    Except String (List (String × String)) :=
  match schema "Mutation" with
  | none =>
    Except.error
      "Could not introspect Mutation type. Check that mutations are defined and introspection is enabled."
  | some mutationRoot =>
    Except.ok
      (["update", "create", "delete"].foldl
        (fun acc op =>
          let n := op ++ typeName
          if mutationRoot.fields.any (fun f => f.name = n) then acc ++ [(op, n)]
          else acc)
        [])

/- ### Registry builder (src/core/registry.ts) -/

/-- A scalar-name → simplified-type map (`Record<string, FieldType>`);
lookup finds the first matching entry. -/
abbrev ScalarMap := List (String × FieldType)

/-- The `DEFAULT_SCALAR_MAP` record. -/
def DEFAULT_SCALAR_MAP : ScalarMap :=
  [("String", FieldType.string), ("Int", FieldType.number), ("Float", FieldType.number),
   ("Boolean", FieldType.boolean), ("DateTime", FieldType.date), ("ID", FieldType.string)]

/-- Lookup in a scalar map. -/
def lookupScalar (m : ScalarMap) (n : String) : Option FieldType :=
  (m.find? (fun p => p.1 = n)).map Prod.snd

/-- Model of `\x7b ...DEFAULT_SCALAR_MAP, ...config?.scalarMap \x7d`: caller entries
shadow the defaults. -/
def mergeScalarMap (custom : Option ScalarMap) : ScalarMap :=
  custom.getD [] ++ DEFAULT_SCALAR_MAP

/-- Lookup in a string-valued record (label overrides, nested types). -/
def lookupStr (m : List (String × String)) (k : String) : Option String :=
  (m.find? (fun p => p.1 = k)).map Prod.snd

/-- Lookup a pre-fetched nested type by name. -/
def lookupNested (env : List (String × IntrospectionResult)) (n : String) :
    Option IntrospectionResult :=
  (env.find? (fun p => p.1 = n)).map Prod.snd

/-- Step 1 of `formatLabel`, the regex `([a-z])([A-Z])` → `$1 $2`: insert a
space at every lower-to-upper boundary (ASCII, as the regex). -/
def insertSpaces : List Char → List Char
  | [] => []
  | [c] => [c]
  | a :: b :: rest =>
    if a.isLower ∧ b.isUpper then a :: ' ' :: insertSpaces (b :: rest)
    else a :: insertSpaces (b :: rest)

/-- Model of `formatLabel(fieldName)`: space out camelCase and capitalize the first
character. -/
def formatLabel (fieldName : String) : String :=
  capitalize (String.mk (insertSpaces fieldName.data))

/-- Model of `resolveField`: ENUM fields keep their values; SCALAR fields must be
mapped by the active scalar map; everything else is unresolvable (`null`).
An empty `name` is falsy in JS, hence the `n ≠ ""` tests. -/
def resolveField (unwrapped : IntrospectionType) (key nm graphqlPath : String)
    (scalarMap : ScalarMap) : Option FieldDefinition :=
  if unwrapped.kind = "ENUM" then
    some { key := key, label := formatLabel nm, graphqlPath := graphqlPath,
           type := FieldType.enum,
           enumValues := some (((unwrapped.enumValues).map (fun l => l.map (fun v => v.name))).getD []) }
  else
    match unwrapped.name with
    | some n =>
      if n ≠ "" then
        match lookupScalar scalarMap n with
        | some t =>
          if unwrapped.kind = "SCALAR" then
            some { key := key, label := formatLabel nm, graphqlPath := graphqlPath, type := t }
          else none
        | none => none
      else none
    | none => none

/-- The derived flat key of a nested field:
`prefix ? prefix + capitalize(name) : name`. -/
def childKey (keyAcc nm : String) : String :=
  if keyAcc ≠ "" then keyAcc ++ capitalize nm else nm

/-- The derived graphql path of a nested field:
`pathPrefix ? pathPrefix + "." + name : name`. -/
def childPath (pathAcc nm : String) : String :=
  if pathAcc ≠ "" then pathAcc ++ "." ++ nm else nm

/-- The synchronous recursive registry builder (`buildRegistrySync`),
written as recursion over the field list.  Nested OBJECT fields recurse when
depth remains and the nested type was supplied; otherwise the field
contributes nothing. -/
def buildRegistrySync (scalarMap : ScalarMap)
    (nestedTypes : List (String × IntrospectionResult)) (maxDepth : Nat) :
    Nat → String → String → List IntrospectionField → List FieldDefinition
  | _, _, _, [] => []
  | depth, keyAcc, pathAcc, field :: rest =>
    (if field.name = "id" then []
     else
       let unwrapped := unwrapType field.type
       let graphqlPath := childPath pathAcc field.name
       let key := childKey keyAcc field.name
       match resolveField unwrapped key field.name graphqlPath scalarMap with
       | some resolved => [resolved]
       | none =>
         if h : unwrapped.kind = "OBJECT" ∧ depth < maxDepth then
           match unwrapped.name with
           | some n =>
             if n ≠ "" then
               match lookupNested nestedTypes n with
               | some nt =>
                 buildRegistrySync scalarMap nestedTypes maxDepth (depth + 1) key graphqlPath nt.fields
               | none => []
             else []
           | none => []
         else [])
    ++ buildRegistrySync scalarMap nestedTypes maxDepth depth keyAcc pathAcc rest
termination_by depth _ _ fs => (maxDepth - depth, fs.length)
decreasing_by
  · have hd := h.2
    left
    omega
  · right
    simp

/-- The final label-override pass shared by `buildRegistry` and
`buildRegistryAsync` (a falsy — empty — label override is ignored, as in
`if (labels[field.key])`). -/
def applyLabels (labels : List (String × String)) (fields : List FieldDefinition) :
    List FieldDefinition :=
  if labels.isEmpty then fields
  else
    fields.map (fun f =>
      match lookupStr labels f.key with
      | some l => if l ≠ "" then { f with label := l } else f
      | none => f)

/-- The `BuildRegistryConfig` options record. -/
structure BuildRegistryConfig where
  maxDepth : Option Nat := none
  scalarMap : Option ScalarMap := none
  nestedTypes : Option (List (String × IntrospectionResult)) := none
  labels : Option (List (String × String)) := none

/-- Model of `buildRegistry(introspection, config?)`. -/
def buildRegistry (introspection : IntrospectionResult)
    (config : Option BuildRegistryConfig) : List FieldDefinition :=
  let maxDepth := (config.bind (fun c => c.maxDepth)).getD 1
  let scalarMap := mergeScalarMap (config.bind (fun c => c.scalarMap))
  let nestedTypes := (config.bind (fun c => c.nestedTypes)).getD []
  let labels := (config.bind (fun c => c.labels)).getD []
  applyLabels labels (buildRegistrySync scalarMap nestedTypes maxDepth 0 "" "" introspection.fields)

/-- The `DriftConfig` record, reduced to the parts the pipeline logic reads; endpoint,
headers and the transport function are absorbed into the `Schema` the
gateway is evaluated against. -/
structure DriftConfig where
  maxDepth : Option Nat := none
  scalarMap : Option ScalarMap := none

/-- The asynchronous recursive registry builder (`buildRegistryRecursive`):
identical to the sync variant except that nested OBJECT metadata is fetched
through the gateway, whose failure aborts the whole build. -/
def buildRegistryRecursive (schema : Schema) (scalarMap : ScalarMap) (maxDepth : Nat) :
    Nat → String → String → List IntrospectionField → Except String (List FieldDefinition)
  | _, _, _, [] => Except.ok []
  | depth, keyAcc, pathAcc, field :: rest =>
    let headPart : Except String (List FieldDefinition) :=
      if field.name = "id" then Except.ok []
      else
        let unwrapped := unwrapType field.type
        let graphqlPath := childPath pathAcc field.name
        let key := childKey keyAcc field.name
        match resolveField unwrapped key field.name graphqlPath scalarMap with
        | some resolved => Except.ok [resolved]
        | none =>
          if h : unwrapped.kind = "OBJECT" ∧ depth < maxDepth then
            match unwrapped.name with
            | some n =>
              if n ≠ "" then
                match introspectTypeM schema n with
                | Except.ok nt =>
                  buildRegistryRecursive schema scalarMap maxDepth (depth + 1) key graphqlPath nt.fields
                | Except.error e => Except.error e
              else Except.ok []
            | none => Except.ok []
          else Except.ok []
    match headPart with
    | Except.error e => Except.error e
    | Except.ok defs =>
      match buildRegistryRecursive schema scalarMap maxDepth depth keyAcc pathAcc rest with
      | Except.error e => Except.error e
      | Except.ok more => Except.ok (defs ++ more)
termination_by depth _ _ fs => (maxDepth - depth, fs.length)
decreasing_by
  · have hd := h.2
    left
    omega
  · right
    simp

/-- Model of `buildRegistryAsync(typeName, config, options?)`. -/
def buildRegistryAsyncM (schema : Schema) (config : DriftConfig) (typeName : String)
    (labels : List (String × String) := []) : Except String (List FieldDefinition) :=
  match introspectTypeM schema typeName with
  | Except.error e => Except.error e
  | Except.ok introspection =>
    match buildRegistryRecursive schema (mergeScalarMap config.scalarMap)
        (config.maxDepth.getD 1) 0 "" "" introspection.fields with
    | Except.error e => Except.error e
    | Except.ok fields => Except.ok (applyLabels labels fields)

/-- Model of `buildInputRegistry(typeName, config)`: introspect
`Update<TypeName>Input` (any gateway failure becomes the input-type-not-found
error) and run the synchronous builder on it. -/
def buildInputRegistry (schema : Schema) (typeName : String) (config : DriftConfig) :
    Except String (List FieldDefinition) :=
  let inputTypeNm := "Update" ++ typeName ++ "Input"
  match schema inputTypeNm with
  | none =>
    Except.error ("Input type \"" ++ inputTypeNm ++
      "\" not found in schema. Expected an input type following the convention Update\x7bTypeName\x7dInput.")
  | some inputT =>
    Except.ok (buildRegistry inputT
      (some { maxDepth := config.maxDepth, scalarMap := config.scalarMap }))

/-- Model of `getEditableFields(queryFields, inputFields)`. -/
def getEditableFields (queryFields inputFields : List FieldDefinition) :
    List FieldDefinition :=
  queryFields.filter (fun f => inputFields.any (fun g => g.key = f.key))

/- ### Mutation builder (src/core/mutation-builder.ts) -/

/-- Model of `getMutationName(typeName, operation)`. -/
def getMutationName (typeName operation : String) : String :=
  operation ++ typeName

/-- Model of `getInputTypeName(typeName, operation)`. -/
def getInputTypeName (typeName operation : String) : String :=
  capitalize operation ++ typeName ++ "Input"

/-- Model of `buildUpdateMutation(typeName, returnFields, inputTypeName?)`. -/
def buildUpdateMutation (typeName : String) (returnFields : List FieldDefinition)
    (inputTypeNameArg : Option String) : String :=
  let mutationName := getMutationName typeName "update"
  let inputType := inputTypeNameArg.getD (getInputTypeName typeName "update")
  let paths := "id" :: returnFields.map (fun f => f.graphqlPath)
  let selections := buildSelectionSet paths
  let capitalized := capitalize mutationName
  "mutation " ++ capitalized ++ "($id: ID!, $input: " ++ inputType ++ "!) \x7b\n  " ++
    mutationName ++ "(id: $id, input: $input) \x7b\n    " ++
    joinSep "\n    " selections ++ "\n  \x7d\n\x7d"

/-- Model of `buildCreateMutation(typeName, returnFields, inputTypeName?)`. -/
def buildCreateMutation (typeName : String) (returnFields : List FieldDefinition)
    (inputTypeNameArg : Option String) : String :=
  let mutationName := getMutationName typeName "create"
  let inputType := inputTypeNameArg.getD (getInputTypeName typeName "create")
  let paths := "id" :: returnFields.map (fun f => f.graphqlPath)
  let selections := buildSelectionSet paths
  let capitalized := capitalize mutationName
  "mutation " ++ capitalized ++ "($input: " ++ inputType ++ "!) \x7b\n  " ++
    mutationName ++ "(input: $input) \x7b\n    " ++
    joinSep "\n    " selections ++ "\n  \x7d\n\x7d"

/- ### Drift client (src/core/drift.ts) and hook helpers -/

/-- The `DriftType` record. -/
structure DriftType where
  typeName : String
  fields : List FieldDefinition
  mutations : List (String × String)
  inputFields : List FieldDefinition
  editableFields : List FieldDefinition
deriving DecidableEq, Repr

/-- Model of `createDrift(...).type(typeName)` — the `resolveType` closure: the field
registry must build; a mutation-discovery failure degrades to an empty map
and an input-registry failure to empty input/editable fields. -/
def resolveType (schema : Schema) (config : DriftConfig) (typeName : String) :
    Except String DriftType :=
  match buildRegistryAsyncM schema config typeName with
  | Except.error e => Except.error e
  | Except.ok fields =>
    let mutations :=
      match discoverMutations schema typeName with
      | Except.ok m => m
      | Except.error _ => []
    let inputFields :=
      match buildInputRegistry schema typeName config with
      | Except.ok l => l
      | Except.error _ => []
    Except.ok { typeName := typeName, fields := fields, mutations := mutations,
                inputFields := inputFields,
                editableFields := getEditableFields fields inputFields }

/-- Model of `defaultQueryName(typeName)` (react/use-drift-type.tsx and
react/options.ts): `typeName.charAt(0).toLowerCase() + typeName.slice(1) + "s"`. -/
def defaultQueryName (typeName : String) : String :=
  match typeName.data with
  | [] => "s"
  | c :: rest => String.mk (c.toLower :: rest) ++ "s"

/- ### Specification-side definitions

These follow the spec's words, independently of the source, so that the
claims comparing the two can be stated as equalities. -/

/-- Full lowercasing of a string, the literal reading of the spec's
`lowercase(typeName)`. -/
def specLowercase (s : String) : String :=
  String.mk (s.data.map Char.toLower)

/-- The spec's root paths: the dotless paths, in the order given. -/
def selRoots (paths : List String) : List String :=
  paths.filter (fun p => (splitFirstDot p).isNone)

/-- The dotted paths, split once at the first dot, in the order given. -/
def selPairs (paths : List String) : List (String × String) :=
  paths.filterMap splitFirstDot

/-- Keep the first occurrence of every element, in first-seen order
(`seen` records the elements already emitted). -/
def firstDedupAux (seen : List String) : List String → List String
  | [] => []
  | x :: xs =>
    if x ∈ seen then firstDedupAux seen xs
    else x :: firstDedupAux (x :: seen) xs

/-- Keep the first occurrence of every element, in first-seen order. -/
def firstDedup (l : List String) : List String :=
  firstDedupAux [] l

/-- The spec's grouping of parent/child pairs: one group per distinct parent
in first-seen order, holding that parent's children in the order given. -/
def groupsOf (pairs : List (String × String)) : List (String × List String) :=
  (firstDedup (pairs.map Prod.fst)).map
    (fun par => (par, (pairs.filter (fun q => q.1 = par)).map Prod.snd))

/-- The spec's nested groups of a path list. -/
def selGroups (paths : List String) : List (String × List String) :=
  groupsOf (selPairs paths)

/-- One step of reading the subset of `x` covered by a field list: a dotless
path copies the property, a dotted path accumulates `x`'s nested value into
a single intermediate object per parent. -/
def coverStep (x acc : Obj) (f : FieldDefinition) : Obj :=
  match splitFirstDot f.graphqlPath with
  | none => setProp acc f.graphqlPath (getProp x f.graphqlPath)
  | some q =>
    setProp acc q.1
      (JVal.obj (setProp (asObj (getProp acc q.1)) q.2 (getProp (asObj (getProp x q.1)) q.2)))

/-- Fold of `coverStep` over a field list. -/
def coverFold (x : Obj) : List FieldDefinition → Obj → Obj
  | [], acc => acc
  | f :: rest, acc => coverFold x rest (coverStep x acc f)

/-- The subset of the nested object `x` covered by `fields` (the spec's
"subset of x covered by fields" in the round-trip law), read directly off
`x`. -/
def coveredSubset (x : Obj) (fields : List FieldDefinition) : Obj :=
  coverFold x fields []

/-- Example field list: the single nested shipping-address field used by the
spec's flatten/unflatten examples. -/
def wField1 : FieldDefinition :=
  { key := "shippingAddressCity", label := "City",
    graphqlPath := "shippingAddress.city", type := FieldType.string }

/-- Example field list containing only `wField1`. -/
def wFields1 : List FieldDefinition := [wField1]

/-- The spec's null-nested example input `\x7bid: "1", shippingAddress: null\x7d`. -/
def wDataNull : Obj := [("id", JVal.str "1"), ("shippingAddress", JVal.null)]

/-- Example sparse row carrying an `id` the field list does not cover. -/
def wRowId : Obj := [("id", JVal.str "9"), ("status", JVal.str "SHIPPED")]

/-- Example single root field `status`. -/
def wFieldsStatus : List FieldDefinition :=
  [{ key := "status", label := "Status", graphqlPath := "status", type := FieldType.string }]

/-- Shape condition on the nested input: at the parent of every dotted path,
`x` holds an object, `null` or nothing (an object whose paths match the field
list satisfies this). -/
def shapeOkB (x : Obj) (f : FieldDefinition) : Bool :=
  match splitFirstDot f.graphqlPath with
  | none => true
  | some q => objOrNullishB (getProp x q.1)

/-- Invariant of the unflatten accumulator: every dotted parent of the field
list currently holds an object, `null` or nothing. -/
def accOk (x acc : Obj) (fields : List FieldDefinition) : Prop :=
  ∀ f ∈ fields, ∀ q, splitFirstDot f.graphqlPath = some q →
    objOrNullishB (getProp acc q.1) = true

/-- The nested example object `\x7bid:"1", a:"v"\x7d` for the round-trip
counterexample. -/
def wRtData : Obj := [("id", JVal.str "1"), ("a", JVal.str "v")]

/-- A single root field covering `a`. -/
def wRtFields : List FieldDefinition :=
  [{ key := "k", label := "K", graphqlPath := "a", type := FieldType.string }]

/- ### Concrete schema fixtures -/

/-- The spec's `Address \x7b city, country \x7d` type. -/
def exAddressIntro : IntrospectionResult :=
  { name := "Address", fields := [
      { name := "city", type := IntrospectionType.mk (some "String") "SCALAR" none none },
      { name := "country", type := IntrospectionType.mk (some "String") "SCALAR" none none }] }

/-- An `Order` type with one nested object field `shippingAddress: Address`. -/
def exOrderNestedIntro : IntrospectionResult :=
  { name := "Order", fields := [
      { name := "shippingAddress",
        type := IntrospectionType.mk (some "Address") "OBJECT" none none }] }

/-- The spec's `Order` with `orderNumber: NON_NULL(String)`,
`status: ENUM(OrderStatus)\x7bPENDING,SHIPPED\x7d`, `id: ID`. -/
def exOrderScalarIntro : IntrospectionResult :=
  { name := "Order", fields := [
      { name := "orderNumber",
        type := IntrospectionType.mk none "NON_NULL"
          (some (IntrospectionType.mk (some "String") "SCALAR" none none)) none },
      { name := "status",
        type := IntrospectionType.mk (some "OrderStatus") "ENUM" none
          (some [{ name := "PENDING" }, { name := "SHIPPED" }]) },
      { name := "id", type := IntrospectionType.mk (some "ID") "SCALAR" none none }] }

/-- A schema holding both `Order` and `Address`. -/
def exSchemaFull : Schema :=
  fun n => lookupNested [("Order", exOrderNestedIntro), ("Address", exAddressIntro)] n

/-- A schema holding `Order` but not `Address`. -/
def exSchemaNoAddress : Schema :=
  fun n => lookupNested [("Order", exOrderNestedIntro)] n

/-- A schema holding only the scalar `Order` (no Mutation root, no
`UpdateOrderInput`). -/
def exSchemaScalarOnly : Schema :=
  fun n => lookupNested [("Order", exOrderScalarIntro)] n

/-- The two flattened shipping-address field definitions. -/
def exShippingFields : List FieldDefinition :=
  [{ key := "shippingAddressCity", label := "City",
     graphqlPath := "shippingAddress.city", type := FieldType.string },
   { key := "shippingAddressCountry", label := "Country",
     graphqlPath := "shippingAddress.country", type := FieldType.string }]

/-- The two field definitions of the scalar `Order` example. -/
def exScalarFields : List FieldDefinition :=
  [{ key := "orderNumber", label := "Order Number", graphqlPath := "orderNumber",
     type := FieldType.string },
   { key := "status", label := "Status", graphqlPath := "status",
     type := FieldType.enum, enumValues := some ["PENDING", "SHIPPED"] }]

/-- An all-default `DriftConfig`. -/
def cfg0 : DriftConfig := {}

/-- A `DriftConfig` with `maxDepth = 1`. -/
def cfgDepth1 : DriftConfig := { maxDepth := some 1 }

/-- A `DriftConfig` with `maxDepth = 0`. -/
def cfgDepth0 : DriftConfig := { maxDepth := some 0 }

/- ### Substring machinery for the mutation builders -/

/-- Whether `pat` is a prefix of `l`. -/
def startsWithL : List Char → List Char → Bool
  | _, [] => true
  | [], _ :: _ => false
  | c :: cs, d :: ds => c = d && startsWithL cs ds

/-- Whether `pat` occurs somewhere in `l` (naive scan). -/
def hasSubL : List Char → List Char → Bool
  | [], pat => startsWithL [] pat
  | c :: cs, pat => startsWithL (c :: cs) pat || hasSubL cs pat

/-- Whether `pat` occurs as a contiguous substring of `s` (JS `includes`). -/
def hasSubstr (s pat : String) : Bool :=
  hasSubL s.data pat.data

/-- Do the next two characters read `"in"`? -/
def dollarFollows : List Char → Bool
  | i :: n :: _ => i = 'i' && n = 'n'
  | _ => false

/-- Every `'$'` is immediately followed by `"in"`; such a list cannot
contain `"$id"`. -/
def dollarSafeB : List Char → Bool
  | [] => true
  | c :: rest => (if c = '$' then dollarFollows rest else true) && dollarSafeB rest

/-- The propositional version of `dollarSafeB`. -/
def dollarSafe (l : List Char) : Prop :=
  ∀ x y, l = x ++ '$' :: y → ∃ z, y = 'i' :: 'n' :: z

/- ### Basic lemmas about the object model -/

@[simp] theorem IntrospectionType.name_mk (n k o e) :
    (IntrospectionType.mk n k o e).name = n := rfl

@[simp] theorem IntrospectionType.kind_mk (n k o e) :
    (IntrospectionType.mk n k o e).kind = k := rfl

@[simp] theorem IntrospectionType.enumValues_mk (n k o e) :
    (IntrospectionType.mk n k o e).enumValues = e := rfl


theorem getProp_setProp (o : Obj) (k : String) (v : JVal) (k' : String) :
    getProp (setProp o k v) k' = if k' = k then v else getProp o k' := by
  induction o with
  | nil =>
    by_cases h : k' = k
    · subst h
      simp [setProp, getProp, List.find?]
    · have h2 : ¬ k = k' := fun e => h e.symm
      simp [setProp, getProp, List.find?, h, h2]
  | cons p rest ih =>
    obtain ⟨pk, pv⟩ := p
    by_cases hpk : pk = k
    · subst hpk
      by_cases h : k' = pk
      · subst h
        simp [setProp, getProp, List.find?]
      · have h2 : ¬ pk = k' := fun e => h e.symm
        simp [setProp, getProp, List.find?, h, h2]
    · simp only [setProp, if_neg hpk]
      by_cases h : k' = pk
      · subst h
        simp [getProp, List.find?, hpk]
      · have h2 : ¬ pk = k' := fun e => h e.symm
        simpa [getProp, List.find?, h2] using ih

theorem hasProp_setProp (o : Obj) (k : String) (v : JVal) (k' : String) :
    hasProp (setProp o k v) k' = (k' = k || hasProp o k') := by
  induction o with
  | nil =>
    by_cases h : k' = k
    · subst h
      simp [setProp, hasProp]
    · have h2 : ¬ k = k' := fun e => h e.symm
      simp [setProp, hasProp, h, h2]
  | cons p rest ih =>
    obtain ⟨pk, pv⟩ := p
    by_cases hpk : pk = k
    · subst hpk
      by_cases h : k' = pk
      · subst h
        simp [setProp, hasProp]
      · have h2 : ¬ pk = k' := fun e => h e.symm
        simp [setProp, hasProp, h, h2]
    · simp only [setProp, if_neg hpk]
      by_cases h : k' = pk
      · subst h
        simp [hasProp, hpk]
      · have h2 : ¬ pk = k' := fun e => h e.symm
        have ih' := ih
        simp only [hasProp, List.any_cons] at ih' ⊢
        simp [h2, ih']

theorem getProp_removeProp (o : Obj) (k k' : String) (h : k' ≠ k) :
    getProp (removeProp o k) k' = getProp o k' := by
  induction o with
  | nil => simp [removeProp, getProp]
  | cons p rest ih =>
    obtain ⟨pk, pv⟩ := p
    by_cases hpk : pk = k
    · subst hpk
      have h2 : ¬ pk = k' := fun e => h e.symm
      simpa [removeProp, getProp, List.find?, h2] using ih
    · by_cases h2 : pk = k'
      · subst h2
        simp [removeProp, getProp, List.find?, hpk]
      · simpa [removeProp, getProp, List.find?, hpk, h2] using ih

theorem hasProp_removeProp (o : Obj) (k k' : String) (h : k' ≠ k) :
    hasProp (removeProp o k) k' = hasProp o k' := by
  induction o with
  | nil => simp [removeProp, hasProp]
  | cons p rest ih =>
    obtain ⟨pk, pv⟩ := p
    by_cases hpk : pk = k
    · subst hpk
      have h2 : ¬ pk = k' := fun e => h e.symm
      simpa [removeProp, hasProp, h2] using ih
    · by_cases h2 : pk = k'
      · subst h2
        simp [removeProp, hasProp, hpk]
      · simpa [removeProp, hasProp, hpk, h2] using ih

/- ### Lemmas about the flatten loop -/

theorem flattenFold_getProp_of_not_mem (data : Obj) :
    ∀ (fs : List FieldDefinition) (row : Obj) (k : String),
      (∀ f ∈ fs, f.key ≠ k) →
      getProp (flattenFold data fs row) k = getProp row k := by
  intro fs
  induction fs with
  | nil => intro row k _; rfl
  | cons g rest ih =>
    intro row k h
    have hg : g.key ≠ k := h g (List.mem_cons_self g rest)
    have hrest : ∀ f ∈ rest, f.key ≠ k := fun f hf => h f (List.mem_cons_of_mem g hf)
    show getProp (flattenFold data rest _) k = getProp row k
    rw [ih _ k hrest, getProp_setProp, if_neg (fun e : k = g.key => hg e.symm)]

theorem flattenFold_getProp_of_mem (data : Obj) :
    ∀ (fs : List FieldDefinition) (row : Obj) (f : FieldDefinition),
      f ∈ fs →
      (∀ g ∈ fs, g.key = f.key → g.graphqlPath = f.graphqlPath) →
      getProp (flattenFold data fs row) f.key =
        walkPath (JVal.obj data) (splitOnDot f.graphqlPath) := by
  intro fs
  induction fs with
  | nil => intro _ _ hf; exact absurd hf (List.not_mem_nil _)
  | cons g rest ih =>
    intro row f hf hcoh
    by_cases hex : ∃ h', h' ∈ rest ∧ h'.key = f.key
    · obtain ⟨h', hm, hk⟩ := hex
      have coh' : ∀ g' ∈ rest, g'.key = h'.key → g'.graphqlPath = h'.graphqlPath := by
        intro g' hg' he
        have e1 := hcoh g' (List.mem_cons_of_mem g hg') (he.trans hk)
        have e2 := hcoh h' (List.mem_cons_of_mem g hm) hk
        rw [e1, e2]
      have hstep := ih (setProp row g.key (walkPath (JVal.obj data) (splitOnDot g.graphqlPath)))
        h' hm coh'
      have hpath : h'.graphqlPath = f.graphqlPath := hcoh h' (List.mem_cons_of_mem g hm) hk
      show getProp (flattenFold data rest _) f.key = _
      rw [← hk, hstep, hpath]
    · have hf_eq : f = g := by
        rcases List.mem_cons.mp hf with h1 | h1
        · exact h1
        · exact absurd ⟨f, h1, rfl⟩ hex
      subst hf_eq
      have hnot : ∀ h' ∈ rest, h'.key ≠ f.key := fun h' hm he => hex ⟨h', hm, he⟩
      show getProp (flattenFold data rest _) f.key = _
      rw [flattenFold_getProp_of_not_mem data rest _ f.key hnot, getProp_setProp]
      simp

theorem flattenFold_hasProp_mono (data : Obj) :
    ∀ (fs : List FieldDefinition) (row : Obj) (k : String),
      hasProp row k = true →
      hasProp (flattenFold data fs row) k = true := by
  intro fs
  induction fs with
  | nil => intro row k h; exact h
  | cons g rest ih =>
    intro row k h
    show hasProp (flattenFold data rest _) k = true
    apply ih
    rw [hasProp_setProp, h]
    simp

theorem flattenFold_hasProp_of_mem (data : Obj) :
    ∀ (fs : List FieldDefinition) (row : Obj) (f : FieldDefinition),
      f ∈ fs →
      hasProp (flattenFold data fs row) f.key = true := by
  intro fs
  induction fs with
  | nil => intro _ _ hf; exact absurd hf (List.not_mem_nil _)
  | cons g rest ih =>
    intro row f hf
    rcases List.mem_cons.mp hf with h1 | h1
    · subst h1
      show hasProp (flattenFold data rest _) f.key = true
      apply flattenFold_hasProp_mono
      rw [hasProp_setProp]
      simp
    · exact ih _ f h1

/-- Claim C8: `flatten` copies `id` through from the input when present, walks
each field's `graphqlPath` one segment at a time with the flat value becoming
`undefined` (not `null`) as soon as an intermediate value is nullish, so
`flatten(\x7bid:"1", shippingAddress:null\x7d, fields)` yields
`shippingAddressCity === undefined`. -/
theorem flatten_copies_id_and_short_circuits (data : Obj) (fields : List FieldDefinition)
    (hid : ∀ f ∈ fields, f.key ≠ "id") :
    (hasProp data "id" = true → getProp (flatten data fields) "id" = getProp data "id") ∧
    (∀ f ∈ fields, (∀ g ∈ fields, g.key = f.key → g.graphqlPath = f.graphqlPath) →
      getProp (flatten data fields) f.key = walkPath (JVal.obj data) (splitOnDot f.graphqlPath)) ∧
    (∀ (v : JVal) (p : String) (rest : List String), isNullish v = true →
      walkPath v (p :: rest) = JVal.undef) := by
  refine ⟨?_, ?_, ?_⟩
  · intro hhas
    show getProp (flattenFold data fields _) "id" = getProp data "id"
    rw [flattenFold_getProp_of_not_mem data fields _ "id" hid, hhas]
    simp [getProp_setProp]
  · intro f hf hcoh
    exact flattenFold_getProp_of_mem data fields _ f hf hcoh
  · intro v p rest hv
    simp [walkPath, hv]

/-- Witness for C8 at the spec's concrete null-nested example. -/
theorem flatten_copies_id_and_short_circuits_witness :
    getProp (flatten wDataNull wFields1) "shippingAddressCity" = JVal.undef ∧
    getProp (flatten wDataNull wFields1) "id" = JVal.str "1" := by
  have h := flatten_copies_id_and_short_circuits wDataNull wFields1 (by decide)
  constructor
  · have h2 := h.2.1 wField1 (by decide) (by decide)
    exact h2.trans rfl
  · have h1 := h.1 (by rfl)
    exact h1.trans rfl

/- ### Lemmas about the unflatten loop -/

theorem unflattenStep_skip (flatData result : Obj) (f : FieldDefinition)
    (hkey : ¬ hasProp flatData f.key = true) :
    unflattenStep flatData result f = Except.ok result := by
  unfold unflattenStep
  rw [if_neg hkey]

theorem unflattenStep_root (flatData result : Obj) (f : FieldDefinition)
    (hkey : hasProp flatData f.key = true) (hsp : splitFirstDot f.graphqlPath = none) :
    unflattenStep flatData result f =
      Except.ok (setProp result f.graphqlPath (getProp flatData f.key)) := by
  unfold unflattenStep
  rw [if_pos hkey, hsp]

theorem unflattenStep_nested (flatData result : Obj) (f : FieldDefinition)
    (q : String × String)
    (hkey : hasProp flatData f.key = true) (hsp : splitFirstDot f.graphqlPath = some q) :
    unflattenStep flatData result f =
      unflattenAssign result q.1 q.2 (getProp flatData f.key) := by
  unfold unflattenStep
  rw [if_pos hkey, hsp]

theorem unflattenAssign_obj (result : Obj) (par child : String) (v : JVal)
    (o : List (String × JVal)) (hv : getProp result par = JVal.obj o) :
    unflattenAssign result par child v =
      Except.ok (setProp result par (JVal.obj (setProp o child v))) := by
  unfold unflattenAssign
  rw [hv]

theorem unflattenAssign_undef (result : Obj) (par child : String) (v : JVal)
    (hv : getProp result par = JVal.undef) :
    unflattenAssign result par child v =
      Except.ok (setProp result par (JVal.obj [(child, v)])) := by
  unfold unflattenAssign
  rw [hv]

theorem unflattenAssign_null (result : Obj) (par child : String) (v : JVal)
    (hv : getProp result par = JVal.null) :
    unflattenAssign result par child v =
      Except.ok (setProp result par (JVal.obj [(child, v)])) := by
  unfold unflattenAssign
  rw [hv]

theorem unflattenAssign_ok_hasProp (result : Obj) (par child : String) (v : JVal) (r : Obj)
    (h : unflattenAssign result par child v = Except.ok r) (k : String) :
    (hasProp r k = true ↔ k = par ∨ hasProp result k = true) := by
  unfold unflattenAssign at h
  cases hv : getProp result par with
  | obj o =>
    rw [hv] at h
    cases h
    rw [hasProp_setProp]
    simp
  | undef =>
    rw [hv] at h
    cases h
    rw [hasProp_setProp]
    simp
  | null =>
    rw [hv] at h
    cases h
    rw [hasProp_setProp]
    simp
  | str s => rw [hv] at h; cases h
  | num n => rw [hv] at h; cases h
  | bool b => rw [hv] at h; cases h

theorem unflattenStep_ok_hasProp (flatData result : Obj) (f : FieldDefinition) (r : Obj)
    (h : unflattenStep flatData result f = Except.ok r) (k : String) :
    (hasProp r k = true ↔
      hasProp result k = true ∨
        (hasProp flatData f.key = true ∧ headSegment f.graphqlPath = k)) := by
  by_cases hkey : hasProp flatData f.key = true
  · cases hsp : splitFirstDot f.graphqlPath with
    | none =>
      rw [unflattenStep_root flatData result f hkey hsp] at h
      cases h
      rw [hasProp_setProp]
      have hhead : headSegment f.graphqlPath = f.graphqlPath := by
        simp [headSegment, hsp]
      rw [hhead]
      simp only [Bool.or_eq_true, decide_eq_true_eq]
      constructor
      · rintro (h1 | h2)
        · exact Or.inr ⟨hkey, h1.symm⟩
        · exact Or.inl h2
      · rintro (h2 | ⟨_, h1⟩)
        · exact Or.inr h2
        · exact Or.inl h1.symm
    | some q =>
      rw [unflattenStep_nested flatData result f q hkey hsp] at h
      have h2 := unflattenAssign_ok_hasProp result q.1 q.2 (getProp flatData f.key) r h k
      have hhead : headSegment f.graphqlPath = q.1 := by
        simp [headSegment, hsp]
      rw [h2, hhead]
      constructor
      · rintro (hq | ha)
        · exact Or.inr ⟨hkey, hq.symm⟩
        · exact Or.inl ha
      · rintro (ha | ⟨_, hq⟩)
        · exact Or.inr ha
        · exact Or.inl hq.symm
  · rw [unflattenStep_skip flatData result f hkey] at h
    cases h
    simp [hkey]

theorem unflattenFold_ok_hasProp (flatData : Obj) :
    ∀ (fs : List FieldDefinition) (acc out : Obj),
      unflattenFold flatData fs acc = Except.ok out → ∀ k,
      (hasProp out k = true ↔
        hasProp acc k = true ∨
          ∃ f ∈ fs, hasProp flatData f.key = true ∧ headSegment f.graphqlPath = k) := by
  intro fs
  induction fs with
  | nil =>
    intro acc out h k
    cases h
    simp
  | cons f rest ih =>
    intro acc out h k
    rw [unflattenFold] at h
    cases hstep : unflattenStep flatData acc f with
    | error e => rw [hstep] at h; cases h
    | ok r =>
      rw [hstep] at h
      have h1 := ih r out h k
      have h2 := unflattenStep_ok_hasProp flatData acc f r hstep k
      rw [h1, h2]
      constructor
      · rintro ((ha | hc) | ⟨g, hg, hgp⟩)
        · exact Or.inl ha
        · exact Or.inr ⟨f, List.mem_cons_self f rest, hc⟩
        · exact Or.inr ⟨g, List.mem_cons_of_mem f hg, hgp⟩
      · rintro (ha | ⟨g, hg, hgp⟩)
        · exact Or.inl (Or.inl ha)
        · rcases List.mem_cons.mp hg with h3 | h3
          · subst h3
            exact Or.inl (Or.inr hgp)
          · exact Or.inr ⟨g, h3, hgp⟩

theorem unflattenStep_removeProp_id (flatData result : Obj) (f : FieldDefinition)
    (hid : f.key ≠ "id") :
    unflattenStep (removeProp flatData "id") result f = unflattenStep flatData result f := by
  rw [unflattenStep, unflattenStep,
    hasProp_removeProp flatData "id" f.key hid,
    getProp_removeProp flatData "id" f.key hid]

theorem unflattenFold_removeProp_id (flatData : Obj) :
    ∀ (fs : List FieldDefinition) (acc : Obj),
      (∀ f ∈ fs, f.key ≠ "id") →
      unflattenFold (removeProp flatData "id") fs acc = unflattenFold flatData fs acc := by
  intro fs
  induction fs with
  | nil => intro acc _; rfl
  | cons f rest ih =>
    intro acc hid
    rw [unflattenFold, unflattenFold,
      unflattenStep_removeProp_id flatData acc f (hid f (List.mem_cons_self f rest))]
    cases unflattenStep flatData acc f with
    | error e => rfl
    | ok r => exact ih r (fun g hg => hid g (List.mem_cons_of_mem f hg))

/-- Claim C10: the top-level keys of `unflatten(flatRow, fields)` are exactly
the head segments (dotless path, or parent before the first dot) of the
fields whose key is an own property of `flatRow`; and the `id` entry of
`flatRow` is never read unless some field's key is literally `"id"`, so the
result is unchanged when `id` is removed from the row. -/
theorem unflatten_top_level_keys (flatRow : Obj) (fields : List FieldDefinition) :
    (∀ out, unflattenE flatRow fields = Except.ok out → ∀ k,
      (hasProp out k = true ↔
        ∃ f ∈ fields, hasProp flatRow f.key = true ∧ headSegment f.graphqlPath = k)) ∧
    ((∀ f ∈ fields, f.key ≠ "id") →
      unflattenE (removeProp flatRow "id") fields = unflattenE flatRow fields) := by
  constructor
  · intro out h k
    have h1 := unflattenFold_ok_hasProp flatRow fields [] out h k
    rw [h1]
    simp [hasProp]
  · intro hid
    exact unflattenFold_removeProp_id flatRow fields [] hid

/-- Witness for C10: at the sparse-row example the only top-level key is
`status`, and dropping `id` from the row leaves the output unchanged. -/
theorem unflatten_top_level_keys_witness :
    (∃ f ∈ wFieldsStatus, hasProp wRowId f.key = true ∧ headSegment f.graphqlPath = "status") ∧
    unflattenE (removeProp wRowId "id") wFieldsStatus = unflattenE wRowId wFieldsStatus := by
  have h := unflatten_top_level_keys wRowId wFieldsStatus
  exact ⟨(h.1 [("status", JVal.str "SHIPPED")] rfl "status").mp (by rfl), h.2 (by decide)⟩

/- ### Bridging lemmas between the two path-splitting operations -/

theorem breakAtDot_none_splitChars :
    ∀ l : List Char, breakAtDot l = none → splitOnDotChars l = [l] := by
  intro l
  induction l with
  | nil => intro _; rfl
  | cons c rest ih =>
    intro h
    by_cases hc : c = '.'
    · rw [breakAtDot, if_pos hc] at h
      cases h
    · rw [breakAtDot, if_neg hc] at h
      cases hb : breakAtDot rest with
      | none =>
        rw [splitOnDotChars, if_neg hc, ih hb]
      | some p =>
        rw [hb] at h
        cases h

theorem breakAtDot_some_splitChars :
    ∀ (l a b : List Char), breakAtDot l = some (a, b) →
      splitOnDotChars l = a :: splitOnDotChars b := by
  intro l
  induction l with
  | nil => intro a b h; cases h
  | cons c rest ih =>
    intro a b h
    by_cases hc : c = '.'
    · rw [breakAtDot, if_pos hc] at h
      cases h
      rw [splitOnDotChars, if_pos hc]
    · rw [breakAtDot, if_neg hc] at h
      cases hb : breakAtDot rest with
      | none => rw [hb] at h; cases h
      | some p =>
        rw [hb] at h
        cases h
        rw [splitOnDotChars, if_neg hc, ih p.1 p.2 (by rw [hb])]

theorem splitOnDot_of_none (s : String) (h : splitFirstDot s = none) :
    splitOnDot s = [s] := by
  unfold splitFirstDot at h
  cases hb : breakAtDot s.data with
  | none =>
    unfold splitOnDot
    rw [breakAtDot_none_splitChars s.data hb]
    cases s
    rfl
  | some p => rw [hb] at h; cases h

theorem splitOnDot_of_one_dot (s : String) (q : String × String)
    (h : splitFirstDot s = some q) (h2 : splitFirstDot q.2 = none) :
    splitOnDot s = [q.1, q.2] := by
  unfold splitFirstDot at h
  cases hb : breakAtDot s.data with
  | none => rw [hb] at h; cases h
  | some p =>
    rw [hb] at h
    cases h
    unfold splitFirstDot at h2
    cases hb2 : breakAtDot (String.mk p.2).data with
    | some r => rw [hb2] at h2; cases h2
    | none =>
      unfold splitOnDot
      rw [breakAtDot_some_splitChars s.data p.1 p.2 hb,
        breakAtDot_none_splitChars p.2 hb2]
      rfl

/- ### Evaluating the flatten walk through a split path -/

theorem oneDotAtMostB_of_some (p : String) (q : String × String)
    (hsp : splitFirstDot p = some q) :
    oneDotAtMostB p = (splitFirstDot q.2).isNone := by
  unfold oneDotAtMostB
  rw [hsp]

theorem walkPath_root (x : Obj) (p : String) (hsp : splitFirstDot p = none) :
    walkPath (JVal.obj x) (splitOnDot p) = getProp x p := by
  rw [splitOnDot_of_none p hsp]
  rfl

theorem walkPath_nested (x : Obj) (p : String) (q : String × String)
    (hsp : splitFirstDot p = some q) (h2 : splitFirstDot q.2 = none) :
    walkPath (JVal.obj x) (splitOnDot p) = getProp (asObj (getProp x q.1)) q.2 := by
  rw [splitOnDot_of_one_dot p q hsp h2,
    show walkPath (JVal.obj x) [q.1, q.2] = walkPath (getProp x q.1) [q.2] from rfl]
  cases hv : getProp x q.1 with
  | obj o => rfl
  | undef => rfl
  | null => rfl
  | str s => rfl
  | num n => rfl
  | bool b => rfl

/- ### The round-trip law -/

theorem shapeOkB_of_some (x : Obj) (f : FieldDefinition) (q : String × String)
    (hsp : splitFirstDot f.graphqlPath = some q) :
    shapeOkB x f = objOrNullishB (getProp x q.1) := by
  unfold shapeOkB
  rw [hsp]

theorem coverStep_root (x acc : Obj) (f : FieldDefinition)
    (hsp : splitFirstDot f.graphqlPath = none) :
    coverStep x acc f = setProp acc f.graphqlPath (getProp x f.graphqlPath) := by
  unfold coverStep
  rw [hsp]

theorem coverStep_nested (x acc : Obj) (f : FieldDefinition) (q : String × String)
    (hsp : splitFirstDot f.graphqlPath = some q) :
    coverStep x acc f =
      setProp acc q.1
        (JVal.obj (setProp (asObj (getProp acc q.1)) q.2
          (getProp (asObj (getProp x q.1)) q.2))) := by
  unfold coverStep
  rw [hsp]

theorem step_agrees (x row acc : Obj) (f : FieldDefinition)
    (hhas : hasProp row f.key = true)
    (hget : getProp row f.key = walkPath (JVal.obj x) (splitOnDot f.graphqlPath))
    (hdot : oneDotAtMostB f.graphqlPath = true)
    (hacc : ∀ q, splitFirstDot f.graphqlPath = some q →
      objOrNullishB (getProp acc q.1) = true) :
    unflattenStep row acc f = Except.ok (coverStep x acc f) := by
  cases hsp : splitFirstDot f.graphqlPath with
  | none =>
    rw [unflattenStep_root row acc f hhas hsp, coverStep_root x acc f hsp, hget,
      walkPath_root x f.graphqlPath hsp]
  | some q =>
    have h2 : splitFirstDot q.2 = none := by
      rw [oneDotAtMostB_of_some f.graphqlPath q hsp] at hdot
      exact Option.isNone_iff_eq_none.mp hdot
    have hv : getProp row f.key = getProp (asObj (getProp x q.1)) q.2 := by
      rw [hget, walkPath_nested x f.graphqlPath q hsp h2]
    rw [unflattenStep_nested row acc f q hhas hsp, coverStep_nested x acc f q hsp, hv]
    have ha := hacc q hsp
    cases hav : getProp acc q.1 with
    | obj o =>
      rw [unflattenAssign_obj acc q.1 q.2 _ o hav]
      rfl
    | undef =>
      rw [unflattenAssign_undef acc q.1 q.2 _ hav]
      rfl
    | null =>
      rw [unflattenAssign_null acc q.1 q.2 _ hav]
      rfl
    | str s => rw [hav] at ha; cases ha
    | num n => rw [hav] at ha; cases ha
    | bool b => rw [hav] at ha; cases ha

theorem accOk_preserved (x acc : Obj) (fields : List FieldDefinition) (f : FieldDefinition)
    (hsh : ∀ g ∈ fields, shapeOkB x g = true)
    (hP : accOk x acc fields) :
    accOk x (coverStep x acc f) fields := by
  intro g hg q hq
  cases hsp : splitFirstDot f.graphqlPath with
  | none =>
    rw [coverStep_root x acc f hsp, getProp_setProp]
    by_cases he : q.1 = f.graphqlPath
    · rw [if_pos he, ← he]
      have hs := hsh g hg
      rw [shapeOkB_of_some x g q hq] at hs
      exact hs
    · rw [if_neg he]
      exact hP g hg q hq
  | some qf =>
    rw [coverStep_nested x acc f qf hsp, getProp_setProp]
    by_cases he : q.1 = qf.1
    · rw [if_pos he]
      rfl
    · rw [if_neg he]
      exact hP g hg q hq

theorem roundTripAux (x : Obj) (fields : List FieldDefinition) (row : Obj)
    (hrowHas : ∀ f ∈ fields, hasProp row f.key = true)
    (hrowGet : ∀ f ∈ fields, getProp row f.key =
      walkPath (JVal.obj x) (splitOnDot f.graphqlPath))
    (hdot : ∀ f ∈ fields, oneDotAtMostB f.graphqlPath = true)
    (hsh : ∀ f ∈ fields, shapeOkB x f = true) :
    ∀ fs : List FieldDefinition, (∀ f ∈ fs, f ∈ fields) →
      ∀ acc, accOk x acc fields →
      unflattenFold row fs acc = Except.ok (coverFold x fs acc) := by
  intro fs
  induction fs with
  | nil => intro _ acc _; rfl
  | cons f rest ih =>
    intro hsub acc hacc
    have hf : f ∈ fields := hsub f (List.mem_cons_self f rest)
    have hstep := step_agrees x row acc f (hrowHas f hf) (hrowGet f hf) (hdot f hf)
      (fun q hq => hacc f hf q hq)
    show (match unflattenStep row acc f with
      | Except.ok r => unflattenFold row rest r
      | Except.error e => Except.error e) = Except.ok (coverFold x rest (coverStep x acc f))
    rw [hstep]
    exact ih (fun g hg => hsub g (List.mem_cons_of_mem f hg)) (coverStep x acc f)
      (accOk_preserved x acc fields f hsh hacc)

/-- Claim C1 (amended): for a field list with coherent keys (equal keys imply
equal paths) whose paths have at most one dot, and a nested object whose
dotted-path parents hold objects or nulls, `unflatten(flatten(x, fields),
fields)` equals the subset of `x` covered by `fields` — read directly off
`x` by `coveredSubset`.  The `id` property is not reconstructed: the round
trip drops it unless some field covers it. -/
theorem flatten_unflatten_round_trip (x : Obj) (fields : List FieldDefinition)
    (hdot : ∀ f ∈ fields, oneDotAtMostB f.graphqlPath = true)
    (hkey : ∀ f ∈ fields, ∀ g ∈ fields, g.key = f.key → g.graphqlPath = f.graphqlPath)
    (hsh : ∀ f ∈ fields, shapeOkB x f = true) :
    unflattenE (flatten x fields) fields = Except.ok (coveredSubset x fields) := by
  apply roundTripAux x fields (flatten x fields) ?_ ?_ hdot hsh fields
    (fun f hf => hf) [] ?_
  · intro f hf
    exact flattenFold_hasProp_of_mem x fields _ f hf
  · intro f hf
    exact flattenFold_getProp_of_mem x fields _ f hf (fun g hg he => hkey f hf g hg he)
  · intro f _ q _
    rfl

/-- Counterexample to C1 as stated: the input has an `id` property, yet the
round trip yields exactly `\x7ba:"v"\x7d` — the `id` property is not
reconstructed, contradicting "plus the id property when x has one". -/
theorem flatten_unflatten_round_trip_drops_id :
    hasProp wRtData "id" = true ∧
    unflattenE (flatten wRtData wRtFields) wRtFields = Except.ok [("a", JVal.str "v")] ∧
    hasProp [("a", JVal.str "v")] "id" = false := by
  exact ⟨rfl, rfl, rfl⟩

/-- Witness for C1 at the spec's shipping-address example. -/
theorem flatten_unflatten_round_trip_witness :
    unflattenE
        (flatten [("id", JVal.str "1"), ("shippingAddress", JVal.obj [("city", JVal.str "Berlin")])] wFields1)
        wFields1 =
      Except.ok (coveredSubset
        [("id", JVal.str "1"), ("shippingAddress", JVal.obj [("city", JVal.str "Berlin")])] wFields1) := by
  exact flatten_unflatten_round_trip
    [("id", JVal.str "1"), ("shippingAddress", JVal.obj [("city", JVal.str "Berlin")])]
    wFields1 (by decide) (by decide) (by decide)

/- ### Characterizing the selection-set builder -/

theorem mem_firstDedupAux :
    ∀ (l seen : List String) (a : String),
      a ∈ firstDedupAux seen l ↔ a ∈ l ∧ a ∉ seen := by
  intro l
  induction l with
  | nil => intro seen a; simp [firstDedupAux]
  | cons x xs ih =>
    intro seen a
    by_cases hx : x ∈ seen
    · rw [firstDedupAux, if_pos hx, ih]
      constructor
      · rintro ⟨h1, h2⟩
        exact ⟨List.mem_cons_of_mem x h1, h2⟩
      · rintro ⟨h1, h2⟩
        rcases List.mem_cons.mp h1 with he | hm
        · subst he; exact absurd hx h2
        · exact ⟨hm, h2⟩
    · rw [firstDedupAux, if_neg hx]
      constructor
      · intro h
        rcases List.mem_cons.mp h with he | hm
        · subst he
          exact ⟨List.mem_cons_self _ _, hx⟩
        · rw [ih] at hm
          obtain ⟨h1, h2⟩ := hm
          exact ⟨List.mem_cons_of_mem x h1, fun hs => h2 (List.mem_cons_of_mem x hs)⟩
      · rintro ⟨h1, h2⟩
        rcases List.mem_cons.mp h1 with he | hm
        · subst he
          exact List.mem_cons_self _ _
        · by_cases hax : a = x
          · subst hax
            exact List.mem_cons_self _ _
          · apply List.mem_cons_of_mem
            rw [ih]
            exact ⟨hm, fun hs => (List.mem_cons.mp hs).elim hax h2⟩

theorem mem_firstDedup (l : List String) (a : String) :
    a ∈ firstDedup l ↔ a ∈ l := by
  unfold firstDedup
  rw [mem_firstDedupAux]
  simp

theorem nodup_firstDedupAux :
    ∀ (l seen : List String), (firstDedupAux seen l).Nodup := by
  intro l
  induction l with
  | nil => intro seen; simp [firstDedupAux]
  | cons x xs ih =>
    intro seen
    by_cases hx : x ∈ seen
    · rw [firstDedupAux, if_pos hx]
      exact ih seen
    · rw [firstDedupAux, if_neg hx]
      refine List.nodup_cons.mpr ⟨?_, ih (x :: seen)⟩
      intro hmem
      rw [mem_firstDedupAux] at hmem
      exact hmem.2 (List.mem_cons_self x seen)

theorem nodup_firstDedup (l : List String) : (firstDedup l).Nodup :=
  nodup_firstDedupAux l []

theorem firstDedupAux_append_singleton :
    ∀ (l seen : List String) (p : String),
      firstDedupAux seen (l ++ [p]) =
        firstDedupAux seen l ++ (if p ∈ seen ∨ p ∈ l then [] else [p]) := by
  intro l
  induction l with
  | nil =>
    intro seen p
    by_cases hp : p ∈ seen
    · simp [firstDedupAux, hp]
    · simp [firstDedupAux, hp]
  | cons x xs ih =>
    intro seen p
    by_cases hx : x ∈ seen
    · rw [List.cons_append, firstDedupAux, if_pos hx, firstDedupAux, if_pos hx, ih]
      congr 1
      have hiff : (p ∈ seen ∨ p ∈ xs) ↔ (p ∈ seen ∨ p ∈ x :: xs) := by
        simp only [List.mem_cons]
        constructor
        · rintro (h1 | h1)
          · exact Or.inl h1
          · exact Or.inr (Or.inr h1)
        · rintro (h1 | h1 | h1)
          · exact Or.inl h1
          · subst h1; exact Or.inl hx
          · exact Or.inr h1
      rw [if_congr hiff rfl rfl]
    · rw [List.cons_append, firstDedupAux, if_neg hx, firstDedupAux, if_neg hx, ih]
      simp only [List.cons_append]
      congr 2
      have hiff : (p ∈ x :: seen ∨ p ∈ xs) ↔ (p ∈ seen ∨ p ∈ x :: xs) := by
        simp only [List.mem_cons]
        constructor
        · rintro ((h1 | h1) | h1)
          · subst h1; exact Or.inr (Or.inl rfl)
          · exact Or.inl h1
          · exact Or.inr (Or.inr h1)
        · rintro (h1 | h1 | h1)
          · exact Or.inl (Or.inr h1)
          · subst h1; exact Or.inl (Or.inl rfl)
          · exact Or.inr h1
      rw [if_congr hiff rfl rfl]

theorem selStep_root (acc : List String × List (String × List String)) (path : String)
    (hsp : splitFirstDot path = none) :
    selStep acc path = (acc.1 ++ [path], acc.2) := by
  unfold selStep
  rw [hsp]

theorem selStep_nested (acc : List String × List (String × List String)) (path : String)
    (q : String × String) (hsp : splitFirstDot path = some q) :
    selStep acc path = (acc.1, mapInsert acc.2 q.1 q.2) := by
  unfold selStep
  rw [hsp]

theorem selFold_fst :
    ∀ (paths r : List String) (n : List (String × List String)),
      (List.foldl selStep (r, n) paths).1 = r ++ selRoots paths := by
  intro paths
  induction paths with
  | nil => intro r n; simp [selRoots]
  | cons path rest ih =>
    intro r n
    rw [List.foldl_cons]
    cases hsp : splitFirstDot path with
    | none =>
      rw [selStep_root (r, n) path hsp, ih]
      have hroots : selRoots (path :: rest) = path :: selRoots rest := by
        simp [selRoots, List.filter_cons, hsp]
      rw [hroots]
      simp
    | some q =>
      rw [selStep_nested (r, n) path q hsp, ih]
      have hroots : selRoots (path :: rest) = selRoots rest := by
        simp [selRoots, List.filter_cons, hsp]
      rw [hroots]

theorem selFold_snd :
    ∀ (paths r : List String) (n : List (String × List String)),
      (List.foldl selStep (r, n) paths).2 =
        List.foldl (fun m q => mapInsert m q.1 q.2) n (selPairs paths) := by
  intro paths
  induction paths with
  | nil => intro r n; simp [selPairs]
  | cons path rest ih =>
    intro r n
    rw [List.foldl_cons]
    cases hsp : splitFirstDot path with
    | none =>
      rw [selStep_root (r, n) path hsp, ih]
      have hpairs : selPairs (path :: rest) = selPairs rest := by
        simp [selPairs, List.filterMap_cons, hsp]
      rw [hpairs]
    | some q =>
      rw [selStep_nested (r, n) path q hsp, ih]
      have hpairs : selPairs (path :: rest) = q :: selPairs rest := by
        simp [selPairs, List.filterMap_cons, hsp]
      rw [hpairs, List.foldl_cons]

theorem mapInsert_notMem :
    ∀ (n : List (String × List String)) (p c : String),
      (∀ g ∈ n, g.1 ≠ p) →
      mapInsert n p c = n ++ [(p, [c])] := by
  intro n
  induction n with
  | nil => intro p c _; rfl
  | cons g rest ih =>
    intro p c h
    obtain ⟨gk, gcs⟩ := g
    have hgk : gk ≠ p := h (gk, gcs) (List.mem_cons_self _ _)
    simp only [mapInsert, if_neg hgk]
    rw [ih p c (fun g' hg' => h g' (List.mem_cons_of_mem _ hg'))]
    rfl

theorem mapInsert_map :
    ∀ (parents : List String) (h : String → List String) (p c : String),
      parents.Nodup → p ∈ parents →
      mapInsert (parents.map (fun par => (par, h par))) p c =
        parents.map (fun par => (par, if par = p then h par ++ [c] else h par)) := by
  intro parents h p c
  induction parents with
  | nil => intro _ hp; cases hp
  | cons a rest ih =>
    intro hnd hp
    rw [List.map_cons, List.map_cons]
    by_cases ha : a = p
    · subst ha
      have hnot : a ∉ rest := (List.nodup_cons.mp hnd).1
      have e1 : mapInsert ((a, h a) :: List.map (fun par => (par, h par)) rest) a c =
          (a, h a ++ [c]) :: List.map (fun par => (par, h par)) rest := by
        unfold mapInsert
        rw [if_pos rfl]
      rw [e1]
      congr 1
      · rw [if_pos rfl]
      · apply List.map_congr_left
        intro par hpar
        have hne : ¬ par = a := fun e => hnot (e ▸ hpar)
        rw [if_neg hne]
    · have hp' : p ∈ rest := by
        rcases List.mem_cons.mp hp with he | hm
        · exact absurd he.symm ha
        · exact hm
      have e1 : mapInsert ((a, h a) :: List.map (fun par => (par, h par)) rest) p c =
          (a, h a) :: mapInsert (List.map (fun par => (par, h par)) rest) p c := by
        simp only [mapInsert]
        rw [if_neg ha]
      rw [e1, ih (List.nodup_cons.mp hnd).2 hp', if_neg ha]

theorem filter_fst_eq_nil :
    ∀ (l : List (String × String)) (p : String),
      p ∉ l.map Prod.fst →
      l.filter (fun q => q.1 = p) = [] := by
  intro l
  induction l with
  | nil => intro p _; rfl
  | cons q rest ih =>
    intro p hp
    have h1 : ¬ q.1 = p := fun e => hp (by
      rw [List.map_cons]
      exact e ▸ List.mem_cons_self _ _)
    rw [List.filter_cons, if_neg (by simpa using h1)]
    exact ih p (fun hm => hp (by
      rw [List.map_cons]
      exact List.mem_cons_of_mem _ hm))

theorem groupsOf_append (l : List (String × String)) (p c : String) :
    groupsOf (l ++ [(p, c)]) = mapInsert (groupsOf l) p c := by
  by_cases hp : p ∈ l.map Prod.fst
  · unfold groupsOf
    have hfd : firstDedup ((l ++ [(p, c)]).map Prod.fst) = firstDedup (l.map Prod.fst) := by
      rw [List.map_append]
      show firstDedup (l.map Prod.fst ++ [p]) = _
      unfold firstDedup
      rw [firstDedupAux_append_singleton, if_pos (Or.inr hp)]
      simp
    rw [hfd,
      mapInsert_map (firstDedup (l.map Prod.fst))
        (fun par => (l.filter (fun q => q.1 = par)).map Prod.snd) p c
        (nodup_firstDedup _) ((mem_firstDedup _ _).mpr hp)]
    apply List.map_congr_left
    intro par hpar
    by_cases hep : par = p
    · subst hep
      rw [if_pos rfl]
      congr 1
      rw [List.filter_append]
      have : ([(par, c)] : List (String × String)).filter (fun q => q.1 = par) = [(par, c)] := by
        simp
      rw [this, List.map_append]
      rfl
    · rw [if_neg hep]
      congr 2
      rw [List.filter_append]
      have hne2 : ¬ p = par := fun e => hep e.symm
      have : ([(p, c)] : List (String × String)).filter (fun q => q.1 = par) = [] := by
        simp [hne2]
      rw [this, List.append_nil]
  · have hkeys : ∀ g ∈ groupsOf l, g.1 ≠ p := by
      intro g hg
      unfold groupsOf at hg
      obtain ⟨par, hpar, hpe⟩ := List.mem_map.mp hg
      intro he
      apply hp
      rw [← he, ← hpe]
      exact (mem_firstDedup _ _).mp hpar
    rw [mapInsert_notMem (groupsOf l) p c hkeys]
    unfold groupsOf
    have hfd : firstDedup ((l ++ [(p, c)]).map Prod.fst) =
        firstDedup (l.map Prod.fst) ++ [p] := by
      rw [List.map_append]
      show firstDedup (l.map Prod.fst ++ [p]) = _
      unfold firstDedup
      rw [firstDedupAux_append_singleton, if_neg (by simpa using hp)]
    rw [hfd, List.map_append]
    congr 1
    · apply List.map_congr_left
      intro par hpar
      have hne : par ≠ p := fun e => hp (e ▸ (mem_firstDedup _ _).mp hpar)
      have hne2 : ¬ p = par := fun e => hne e.symm
      congr 2
      rw [List.filter_append]
      have : ([(p, c)] : List (String × String)).filter (fun q => q.1 = par) = [] := by
        simp [hne2]
      rw [this, List.append_nil]
    · rw [List.map_cons, List.map_nil]
      rw [List.filter_append, filter_fst_eq_nil l p hp]
      simp

theorem foldl_mapInsert_eq_groupsOf :
    ∀ pairs : List (String × String),
      List.foldl (fun m q => mapInsert m q.1 q.2) [] pairs = groupsOf pairs := by
  intro pairs
  induction pairs using List.reverseRecOn with
  | nil => rfl
  | append_singleton l q ih =>
    rw [List.foldl_append, List.foldl_cons, List.foldl_nil, ih]
    obtain ⟨p, c⟩ := q
    exact (groupsOf_append l p c).symm

/-- The full characterization of `buildSelectionSet` in terms of the
spec-side `selRoots` and `selGroups`. -/
theorem buildSelectionSet_spec (paths : List String) :
    buildSelectionSet paths = selRoots paths ++ (selGroups paths).map renderGroup := by
  unfold buildSelectionSet selGroups
  show (List.foldl selStep ([], []) paths).1 ++
      (List.foldl selStep ([], []) paths).2.map renderGroup = _
  rw [selFold_fst paths [] [], selFold_snd paths [] [],
    foldl_mapInsert_eq_groupsOf (selPairs paths)]
  rfl

/-- Claim C2 (amended): `buildSelectionSet` returns the dotless paths first,
unchanged and in the order given — duplicates preserved, not removed —
followed by one rendering `parent \x7b child1 child2 ... \x7d` per distinct
parent of the dotted paths, parents in first-seen order and the children of
each group in the order given (duplicates preserved). -/
theorem buildSelectionSet_roots_then_groups (paths : List String) :
    buildSelectionSet paths = selRoots paths ++ (selGroups paths).map renderGroup :=
  buildSelectionSet_spec paths

/-- Counterexample to C2 as stated: duplicate root paths pass through
untouched, they are not removed. -/
theorem buildSelectionSet_keeps_duplicates :
    buildSelectionSet ["a", "a"] = ["a", "a"] ∧ (["a", "a"] : List String) ≠ ["a"] :=
  ⟨rfl, by decide⟩

/- ### One-step equations for the registry builders -/

theorem resolveField_none_of_kind (unwrapped : IntrospectionType)
    (key nm path : String) (sm : ScalarMap)
    (h1 : unwrapped.kind ≠ "ENUM") (h2 : unwrapped.kind ≠ "SCALAR") :
    resolveField unwrapped key nm path sm = none := by
  cases unwrapped with
  | mk n0 k0 o0 e0 =>
    simp only [IntrospectionType.kind_mk, IntrospectionType.name_mk] at h1 h2 ⊢
    unfold resolveField
    simp only [IntrospectionType.kind_mk, IntrospectionType.name_mk]
    rw [if_neg h1]
    cases n0 with
    | none => rfl
    | some n =>
      by_cases hne : n = ""
      · simp [hne]
      · cases hl : lookupScalar sm n with
        | some t => simp [hne, hl, h2]
        | none => simp [hne, hl]

theorem resolveField_scalar_unmapped (unwrapped : IntrospectionType)
    (key nm path : String) (sm : ScalarMap)
    (h1 : unwrapped.kind = "SCALAR")
    (h2 : unwrapped.name = none ∨
      ∃ n, unwrapped.name = some n ∧ (n = "" ∨ lookupScalar sm n = none)) :
    resolveField unwrapped key nm path sm = none := by
  cases unwrapped with
  | mk n0 k0 o0 e0 =>
    simp only [IntrospectionType.kind_mk, IntrospectionType.name_mk] at h1 h2 ⊢
    subst h1
    unfold resolveField
    simp only [IntrospectionType.kind_mk, IntrospectionType.name_mk]
    rw [if_neg (by decide : ¬ ("SCALAR" : String) = "ENUM")]
    rcases h2 with hn | ⟨n, hn, hcase⟩
    · subst hn
      rfl
    · subst hn
      rcases hcase with he | hl
      · simp [he]
      · simp [hl]

theorem buildRegistrySync_nil (scalarMap : ScalarMap)
    (nestedTypes : List (String × IntrospectionResult)) (maxDepth depth : Nat)
    (keyAcc pathAcc : String) :
    buildRegistrySync scalarMap nestedTypes maxDepth depth keyAcc pathAcc [] = [] := by
  simp only [buildRegistrySync]

theorem buildRegistrySync_cons_id (scalarMap : ScalarMap)
    (nestedTypes : List (String × IntrospectionResult)) (maxDepth depth : Nat)
    (keyAcc pathAcc : String) (field : IntrospectionField) (rest : List IntrospectionField)
    (hid : field.name = "id") :
    buildRegistrySync scalarMap nestedTypes maxDepth depth keyAcc pathAcc (field :: rest) =
      buildRegistrySync scalarMap nestedTypes maxDepth depth keyAcc pathAcc rest := by
  simp only [buildRegistrySync]
  rw [if_pos hid]
  rfl

theorem buildRegistrySync_cons_resolved (scalarMap : ScalarMap)
    (nestedTypes : List (String × IntrospectionResult)) (maxDepth depth : Nat)
    (keyAcc pathAcc : String) (field : IntrospectionField) (rest : List IntrospectionField)
    (r : FieldDefinition)
    (hid : ¬ field.name = "id")
    (hres : resolveField (unwrapType field.type) (childKey keyAcc field.name) field.name
      (childPath pathAcc field.name) scalarMap = some r) :
    buildRegistrySync scalarMap nestedTypes maxDepth depth keyAcc pathAcc (field :: rest) =
      r :: buildRegistrySync scalarMap nestedTypes maxDepth depth keyAcc pathAcc rest := by
  simp only [buildRegistrySync]
  rw [if_neg hid, hres]
  rfl

theorem buildRegistrySync_cons_skip_depth (scalarMap : ScalarMap)
    (nestedTypes : List (String × IntrospectionResult)) (maxDepth depth : Nat)
    (keyAcc pathAcc : String) (field : IntrospectionField) (rest : List IntrospectionField)
    (hid : ¬ field.name = "id")
    (hres : resolveField (unwrapType field.type) (childKey keyAcc field.name) field.name
      (childPath pathAcc field.name) scalarMap = none)
    (hd : ¬ ((unwrapType field.type).kind = "OBJECT" ∧ depth < maxDepth)) :
    buildRegistrySync scalarMap nestedTypes maxDepth depth keyAcc pathAcc (field :: rest) =
      buildRegistrySync scalarMap nestedTypes maxDepth depth keyAcc pathAcc rest := by
  simp only [buildRegistrySync]
  rw [if_neg hid, hres, dif_neg hd]
  rfl

theorem buildRegistrySync_cons_skip_name_none (scalarMap : ScalarMap)
    (nestedTypes : List (String × IntrospectionResult)) (maxDepth depth : Nat)
    (keyAcc pathAcc : String) (field : IntrospectionField) (rest : List IntrospectionField)
    (hid : ¬ field.name = "id")
    (hres : resolveField (unwrapType field.type) (childKey keyAcc field.name) field.name
      (childPath pathAcc field.name) scalarMap = none)
    (hc : (unwrapType field.type).kind = "OBJECT" ∧ depth < maxDepth)
    (hn : (unwrapType field.type).name = none) :
    buildRegistrySync scalarMap nestedTypes maxDepth depth keyAcc pathAcc (field :: rest) =
      buildRegistrySync scalarMap nestedTypes maxDepth depth keyAcc pathAcc rest := by
  simp only [buildRegistrySync]
  rw [if_neg hid, hres, dif_pos hc, hn]
  rfl

theorem buildRegistrySync_cons_skip_name_empty (scalarMap : ScalarMap)
    (nestedTypes : List (String × IntrospectionResult)) (maxDepth depth : Nat)
    (keyAcc pathAcc : String) (field : IntrospectionField) (rest : List IntrospectionField)
    (n : String)
    (hid : ¬ field.name = "id")
    (hres : resolveField (unwrapType field.type) (childKey keyAcc field.name) field.name
      (childPath pathAcc field.name) scalarMap = none)
    (hc : (unwrapType field.type).kind = "OBJECT" ∧ depth < maxDepth)
    (hn : (unwrapType field.type).name = some n) (hne : ¬ n ≠ "") :
    buildRegistrySync scalarMap nestedTypes maxDepth depth keyAcc pathAcc (field :: rest) =
      buildRegistrySync scalarMap nestedTypes maxDepth depth keyAcc pathAcc rest := by
  simp only [buildRegistrySync]
  rw [if_neg hid, hres, dif_pos hc, hn]
  simp [hne]

theorem buildRegistrySync_cons_skip_lookup_none (scalarMap : ScalarMap)
    (nestedTypes : List (String × IntrospectionResult)) (maxDepth depth : Nat)
    (keyAcc pathAcc : String) (field : IntrospectionField) (rest : List IntrospectionField)
    (n : String)
    (hid : ¬ field.name = "id")
    (hres : resolveField (unwrapType field.type) (childKey keyAcc field.name) field.name
      (childPath pathAcc field.name) scalarMap = none)
    (hc : (unwrapType field.type).kind = "OBJECT" ∧ depth < maxDepth)
    (hn : (unwrapType field.type).name = some n) (hne : n ≠ "")
    (hlk : lookupNested nestedTypes n = none) :
    buildRegistrySync scalarMap nestedTypes maxDepth depth keyAcc pathAcc (field :: rest) =
      buildRegistrySync scalarMap nestedTypes maxDepth depth keyAcc pathAcc rest := by
  simp only [buildRegistrySync]
  rw [if_neg hid, hres, dif_pos hc, hn]
  simp [hne, hlk]

/-- Claim C6 helper: skipping an OBJECT field in the synchronous builder when
depth is exhausted, the name is falsy, or the nested type is not supplied. -/
theorem buildRegistrySync_obj_skip (scalarMap : ScalarMap)
    (nestedTypes : List (String × IntrospectionResult)) (maxDepth depth : Nat)
    (keyAcc pathAcc : String) (field : IntrospectionField) (rest : List IntrospectionField)
    (hobj : (unwrapType field.type).kind = "OBJECT")
    (hskip : ¬ depth < maxDepth ∨
      (unwrapType field.type).name = none ∨
      (∃ n, (unwrapType field.type).name = some n ∧
        (n = "" ∨ lookupNested nestedTypes n = none))) :
    buildRegistrySync scalarMap nestedTypes maxDepth depth keyAcc pathAcc (field :: rest) =
      buildRegistrySync scalarMap nestedTypes maxDepth depth keyAcc pathAcc rest := by
  by_cases hid : field.name = "id"
  · exact buildRegistrySync_cons_id scalarMap nestedTypes maxDepth depth keyAcc pathAcc
      field rest hid
  · have hres : resolveField (unwrapType field.type) (childKey keyAcc field.name) field.name
        (childPath pathAcc field.name) scalarMap = none :=
      resolveField_none_of_kind _ _ _ _ _
        (by rw [hobj]; decide) (by rw [hobj]; decide)
    rcases hskip with hd | hn | ⟨n, hn, hcase⟩
    · exact buildRegistrySync_cons_skip_depth scalarMap nestedTypes maxDepth depth keyAcc
        pathAcc field rest hid hres (fun hc => hd hc.2)
    · by_cases hd : depth < maxDepth
      · exact buildRegistrySync_cons_skip_name_none scalarMap nestedTypes maxDepth depth
          keyAcc pathAcc field rest hid hres ⟨hobj, hd⟩ hn
      · exact buildRegistrySync_cons_skip_depth scalarMap nestedTypes maxDepth depth keyAcc
          pathAcc field rest hid hres (fun hc => hd hc.2)
    · by_cases hd : depth < maxDepth
      · rcases hcase with he | hlk
        · exact buildRegistrySync_cons_skip_name_empty scalarMap nestedTypes maxDepth depth
            keyAcc pathAcc field rest n hid hres ⟨hobj, hd⟩ hn (by simp [he])
        · by_cases hne : n = ""
          · exact buildRegistrySync_cons_skip_name_empty scalarMap nestedTypes maxDepth depth
              keyAcc pathAcc field rest n hid hres ⟨hobj, hd⟩ hn (by simp [hne])
          · exact buildRegistrySync_cons_skip_lookup_none scalarMap nestedTypes maxDepth depth
              keyAcc pathAcc field rest n hid hres ⟨hobj, hd⟩ hn hne hlk
      · exact buildRegistrySync_cons_skip_depth scalarMap nestedTypes maxDepth depth keyAcc
          pathAcc field rest hid hres (fun hc => hd hc.2)

theorem buildRegistryRecursive_cons_skip_depth (schema : Schema) (scalarMap : ScalarMap)
    (maxDepth depth : Nat) (keyAcc pathAcc : String)
    (field : IntrospectionField) (rest : List IntrospectionField)
    (hid : ¬ field.name = "id")
    (hres : resolveField (unwrapType field.type) (childKey keyAcc field.name) field.name
      (childPath pathAcc field.name) scalarMap = none)
    (hd : ¬ ((unwrapType field.type).kind = "OBJECT" ∧ depth < maxDepth)) :
    buildRegistryRecursive schema scalarMap maxDepth depth keyAcc pathAcc (field :: rest) =
      buildRegistryRecursive schema scalarMap maxDepth depth keyAcc pathAcc rest := by
  simp only [buildRegistryRecursive]
  rw [if_neg hid, hres, dif_neg hd]
  cases buildRegistryRecursive schema scalarMap maxDepth depth keyAcc pathAcc rest with
  | error e => rfl
  | ok more => rfl

/-- Claim C3 helper: the asynchronous builder also skips an OBJECT field
silently when the depth budget is exhausted. -/
theorem buildRegistryRecursive_obj_skip_depth (schema : Schema) (scalarMap : ScalarMap)
    (maxDepth depth : Nat) (keyAcc pathAcc : String)
    (field : IntrospectionField) (rest : List IntrospectionField)
    (hobj : (unwrapType field.type).kind = "OBJECT")
    (hd : ¬ depth < maxDepth) :
    buildRegistryRecursive schema scalarMap maxDepth depth keyAcc pathAcc (field :: rest) =
      buildRegistryRecursive schema scalarMap maxDepth depth keyAcc pathAcc rest := by
  by_cases hid : field.name = "id"
  · simp only [buildRegistryRecursive]
    rw [if_pos hid]
    cases buildRegistryRecursive schema scalarMap maxDepth depth keyAcc pathAcc rest with
    | error e => rfl
    | ok more => rfl
  · exact buildRegistryRecursive_cons_skip_depth schema scalarMap maxDepth depth keyAcc
      pathAcc field rest hid
      (resolveField_none_of_kind _ _ _ _ _ (by rw [hobj]; decide) (by rw [hobj]; decide))
      (fun hc => hd hc.2)

/- ### Claim C3: nested-object handling of both registry builders -/

/-- Claim C3 (amended): the synchronous builder skips an OBJECT field
silently when the depth budget is exhausted, the name is falsy, or the
nested metadata was not supplied; the asynchronous builder skips silently
when the depth budget is exhausted (but, unlike the claim, it raises an
introspection error when the nested metadata is unavailable — see the
counterexample); with `maxDepth = 1` the nested `Address` example produces
`shippingAddressCity`/`shippingAddressCountry` with graphqlPaths
`shippingAddress.city`/`shippingAddress.country` in both builders, and with
`maxDepth = 0` neither appears. -/
theorem registry_nested_depth_and_skip :
    (∀ (scalarMap : ScalarMap) (nestedTypes : List (String × IntrospectionResult))
        (maxDepth depth : Nat) (keyAcc pathAcc : String)
        (field : IntrospectionField) (rest : List IntrospectionField),
      (unwrapType field.type).kind = "OBJECT" →
      (¬ depth < maxDepth ∨ (unwrapType field.type).name = none ∨
        (∃ n, (unwrapType field.type).name = some n ∧
          (n = "" ∨ lookupNested nestedTypes n = none))) →
      buildRegistrySync scalarMap nestedTypes maxDepth depth keyAcc pathAcc (field :: rest) =
        buildRegistrySync scalarMap nestedTypes maxDepth depth keyAcc pathAcc rest) ∧
    (∀ (schema : Schema) (scalarMap : ScalarMap) (maxDepth depth : Nat)
        (keyAcc pathAcc : String)
        (field : IntrospectionField) (rest : List IntrospectionField),
      (unwrapType field.type).kind = "OBJECT" → ¬ depth < maxDepth →
      buildRegistryRecursive schema scalarMap maxDepth depth keyAcc pathAcc (field :: rest) =
        buildRegistryRecursive schema scalarMap maxDepth depth keyAcc pathAcc rest) ∧
    buildRegistry exOrderNestedIntro
      (some { maxDepth := some 1, nestedTypes := some [("Address", exAddressIntro)] }) =
      exShippingFields ∧
    buildRegistry exOrderNestedIntro
      (some { maxDepth := some 0, nestedTypes := some [("Address", exAddressIntro)] }) = [] ∧
    buildRegistryAsyncM exSchemaFull cfgDepth1 "Order" = Except.ok exShippingFields ∧
    buildRegistryAsyncM exSchemaFull cfgDepth0 "Order" = Except.ok [] := by
  refine ⟨?_, ?_, ?_, ?_, ?_, ?_⟩
  · intro scalarMap nestedTypes maxDepth depth keyAcc pathAcc field rest hobj hskip
    exact buildRegistrySync_obj_skip scalarMap nestedTypes maxDepth depth keyAcc pathAcc
      field rest hobj hskip
  · intro schema scalarMap maxDepth depth keyAcc pathAcc field rest hobj hd
    exact buildRegistryRecursive_obj_skip_depth schema scalarMap maxDepth depth keyAcc
      pathAcc field rest hobj hd
  · simp [buildRegistry, buildRegistrySync, resolveField, unwrapType, lookupNested,
      lookupScalar, mergeScalarMap, DEFAULT_SCALAR_MAP, applyLabels, capitalize,
      formatLabel, insertSpaces, childKey, childPath, exOrderNestedIntro, exAddressIntro,
      exShippingFields]
  · simp [buildRegistry, buildRegistrySync, resolveField, unwrapType, lookupNested,
      lookupScalar, mergeScalarMap, DEFAULT_SCALAR_MAP, applyLabels, capitalize,
      formatLabel, insertSpaces, childKey, childPath, exOrderNestedIntro, exAddressIntro]
  · simp [buildRegistryAsyncM, buildRegistryRecursive, introspectTypeM, resolveField,
      unwrapType, lookupNested, lookupScalar, mergeScalarMap, DEFAULT_SCALAR_MAP,
      applyLabels, capitalize, formatLabel, insertSpaces, childKey, childPath,
      exOrderNestedIntro, exAddressIntro, exSchemaFull, cfgDepth1, exShippingFields]
  · simp [buildRegistryAsyncM, buildRegistryRecursive, introspectTypeM, resolveField,
      unwrapType, lookupNested, lookupScalar, mergeScalarMap, DEFAULT_SCALAR_MAP,
      applyLabels, capitalize, formatLabel, insertSpaces, childKey, childPath,
      exOrderNestedIntro, exAddressIntro, exSchemaFull, cfgDepth0]

/-- Counterexample to C3 as stated: in the asynchronous builder, an OBJECT
field whose nested metadata is unavailable is NOT skipped silently — the
introspection error aborts the whole build. -/
theorem async_missing_nested_type_errors :
    buildRegistryAsyncM exSchemaNoAddress cfgDepth1 "Order" =
      Except.error "Type \"Address\" not found in schema. Check that the type name is correct and introspection is enabled." := by
  simp [buildRegistryAsyncM, buildRegistryRecursive, introspectTypeM, resolveField,
    unwrapType, lookupNested, lookupScalar, mergeScalarMap, DEFAULT_SCALAR_MAP,
    applyLabels, capitalize, formatLabel, insertSpaces, childKey, childPath,
    exOrderNestedIntro, exSchemaNoAddress, cfgDepth1]

/-- Witness for C3: the sync skip applied at a depth-exhausted OBJECT field,
plus the `maxDepth = 1` async example. -/
theorem registry_nested_depth_and_skip_witness :
    buildRegistrySync (mergeScalarMap none) [] 1 1 "shippingAddress" "shippingAddress"
      [{ name := "inner", type := IntrospectionType.mk (some "Address") "OBJECT" none none }] =
    buildRegistrySync (mergeScalarMap none) [] 1 1 "shippingAddress" "shippingAddress" [] ∧
    buildRegistryAsyncM exSchemaFull cfgDepth1 "Order" = Except.ok exShippingFields := by
  have h := registry_nested_depth_and_skip
  exact ⟨h.1 (mergeScalarMap none) [] 1 1 "shippingAddress" "shippingAddress"
    { name := "inner", type := IntrospectionType.mk (some "Address") "OBJECT" none none } []
    rfl (Or.inl (by omega)), h.2.2.2.2.1⟩

/- ### Claim C4: mutation discovery failure handling -/

/-- Claim C4 (amended): when the Mutation root cannot be introspected,
`discoverMutations` raises the descriptive discovery error rather than
returning an empty map; but the caller resolving the type
(`createDrift.resolveType`) catches that failure and falls back to an empty
mutation map — type resolution still succeeds. -/
theorem mutation_discovery_error_swallowed (schema : Schema) (config : DriftConfig)
    (typeName : String) (flds : List FieldDefinition)
    (hmut : schema "Mutation" = none)
    (hreg : buildRegistryAsyncM schema config typeName = Except.ok flds) :
    discoverMutations schema typeName =
      Except.error "Could not introspect Mutation type. Check that mutations are defined and introspection is enabled." ∧
    ∃ ty, resolveType schema config typeName = Except.ok ty ∧
      ty.fields = flds ∧ ty.mutations = [] := by
  have hd : discoverMutations schema typeName =
      Except.error "Could not introspect Mutation type. Check that mutations are defined and introspection is enabled." := by
    unfold discoverMutations
    rw [hmut]
  refine ⟨hd, ?_⟩
  unfold resolveType
  rw [hreg, hd]
  exact ⟨_, rfl, rfl, rfl⟩

/-- Counterexample to C4 as stated: with a schema lacking a Mutation root,
`resolveType` succeeds with an empty mutation map — the discovery failure is
swallowed, not surfaced. -/
theorem resolveType_swallows_mutation_error :
    discoverMutations exSchemaScalarOnly "Order" =
      Except.error "Could not introspect Mutation type. Check that mutations are defined and introspection is enabled." ∧
    resolveType exSchemaScalarOnly cfg0 "Order" =
      Except.ok (DriftType.mk "Order" exScalarFields [] [] []) := by
  constructor
  · rfl
  · simp [resolveType, buildRegistryAsyncM, buildRegistryRecursive, introspectTypeM,
      discoverMutations, buildInputRegistry, buildRegistry, buildRegistrySync,
      getEditableFields, resolveField, unwrapType, lookupNested, lookupScalar,
      mergeScalarMap, DEFAULT_SCALAR_MAP, applyLabels, capitalize, formatLabel,
      insertSpaces, childKey, childPath, exOrderScalarIntro, exSchemaScalarOnly, cfg0,
      exScalarFields]

/-- Witness for C4 at the concrete Mutation-less schema. -/
theorem mutation_discovery_error_swallowed_witness :
    discoverMutations exSchemaScalarOnly "Order" =
      Except.error "Could not introspect Mutation type. Check that mutations are defined and introspection is enabled." ∧
    ∃ ty, resolveType exSchemaScalarOnly cfg0 "Order" = Except.ok ty ∧
      ty.fields = exScalarFields ∧ ty.mutations = [] := by
  exact mutation_discovery_error_swallowed exSchemaScalarOnly cfg0 "Order" exScalarFields
    rfl
    (by simp [buildRegistryAsyncM, buildRegistryRecursive, introspectTypeM, resolveField,
      unwrapType, lookupNested, lookupScalar, mergeScalarMap, DEFAULT_SCALAR_MAP,
      applyLabels, capitalize, formatLabel, insertSpaces, childKey, childPath,
      exOrderScalarIntro, exSchemaScalarOnly, cfg0, exScalarFields])

/- ### Claim C6: scalar/enum resolution and unmapped-scalar skip -/

/-- Claim C6: `buildRegistry` on the `orderNumber`/`status`/`id` example
yields exactly the two expected definitions (id excluded, orderNumber typed
string with label "Order Number", status typed enum with values
["PENDING","SHIPPED"]); and, in general, a SCALAR field whose unwrapped name
is not a key of the active scalar map produces no field definition at all. -/
theorem buildRegistry_example_and_unmapped_scalar_skip :
    buildRegistry exOrderScalarIntro none = exScalarFields ∧
    (∀ (scalarMap : ScalarMap) (nestedTypes : List (String × IntrospectionResult))
        (maxDepth depth : Nat) (keyAcc pathAcc : String)
        (field : IntrospectionField) (rest : List IntrospectionField),
      (unwrapType field.type).kind = "SCALAR" →
      ((unwrapType field.type).name = none ∨
        ∃ n, (unwrapType field.type).name = some n ∧
          (n = "" ∨ lookupScalar scalarMap n = none)) →
      buildRegistrySync scalarMap nestedTypes maxDepth depth keyAcc pathAcc (field :: rest) =
        buildRegistrySync scalarMap nestedTypes maxDepth depth keyAcc pathAcc rest) := by
  constructor
  · simp [buildRegistry, buildRegistrySync, resolveField, unwrapType, lookupNested,
      lookupScalar, mergeScalarMap, DEFAULT_SCALAR_MAP, applyLabels, capitalize,
      formatLabel, insertSpaces, childKey, childPath, exOrderScalarIntro, exScalarFields]
  · intro scalarMap nestedTypes maxDepth depth keyAcc pathAcc field rest hkind hname
    by_cases hid : field.name = "id"
    · exact buildRegistrySync_cons_id scalarMap nestedTypes maxDepth depth keyAcc pathAcc
        field rest hid
    · exact buildRegistrySync_cons_skip_depth scalarMap nestedTypes maxDepth depth keyAcc
        pathAcc field rest hid
        (resolveField_scalar_unmapped _ _ _ _ _ hkind hname)
        (fun hc => by
          rw [hkind] at hc
          exact absurd hc.1 (by decide))

/-- Witness for C6: a custom `JSON` scalar is dropped, and the concrete
example registry is produced. -/
theorem buildRegistry_example_and_unmapped_scalar_skip_witness :
    buildRegistrySync (mergeScalarMap none) [] 1 0 "" ""
      [{ name := "meta", type := IntrospectionType.mk (some "JSON") "SCALAR" none none }] =
    buildRegistrySync (mergeScalarMap none) [] 1 0 "" "" [] ∧
    buildRegistry exOrderScalarIntro none = exScalarFields := by
  have h := buildRegistry_example_and_unmapped_scalar_skip
  exact ⟨h.2 (mergeScalarMap none) [] 1 0 "" ""
    { name := "meta", type := IntrospectionType.mk (some "JSON") "SCALAR" none none } []
    rfl (Or.inr ⟨"JSON", rfl, Or.inr rfl⟩), h.1⟩

/- ### Claim C7: the default query name -/

/-- Claim C7 (amended): for every type name, the default query name
lowercases only the FIRST character and appends "s"; in particular
`defaultQueryName("Order") = "orders"` and `defaultQueryName("OrderItem") =
"orderItems"`. -/
theorem defaultQueryName_examples :
    (∀ (t : String) (c : Char) (rest : List Char), t.data = c :: rest →
      defaultQueryName t = String.mk (c.toLower :: rest) ++ "s") ∧
    defaultQueryName "Order" = "orders" ∧ defaultQueryName "OrderItem" = "orderItems" := by
  refine ⟨?_, rfl, rfl⟩
  intro t c rest ht
  unfold defaultQueryName
  rw [ht]

/-- Witness for C7 at the type name "Order". -/
theorem defaultQueryName_examples_witness :
    defaultQueryName "Order" = String.mk ('O'.toLower :: ['r', 'd', 'e', 'r']) ++ "s" := by
  exact (defaultQueryName_examples).1 "Order" 'O' ['r', 'd', 'e', 'r'] rfl

/-- Counterexample to C7 as stated: on "OrderItem" the result differs from
`lowercase(typeName) + "s"` — only the first character is lowercased. -/
theorem defaultQueryName_not_full_lowercase :
    defaultQueryName "OrderItem" = "orderItems" ∧
    defaultQueryName "OrderItem" ≠ specLowercase "OrderItem" ++ "s" :=
  ⟨rfl, by decide⟩

/- ### Claim C9: input-registry failure and fallback -/

/-- Claim C9: building the input registry fails with an error naming the
missing `Update<TypeName>Input` type when it does not exist, and the caller
assembling the resolved type catches this and falls back to empty
inputFields and editableFields while fields (and mutations) are still
produced. -/
theorem input_registry_error_and_fallback (schema : Schema) (config : DriftConfig)
    (typeName : String) (flds : List FieldDefinition)
    (hmiss : schema ("Update" ++ typeName ++ "Input") = none)
    (hreg : buildRegistryAsyncM schema config typeName = Except.ok flds) :
    buildInputRegistry schema typeName config =
      Except.error ("Input type \"" ++ ("Update" ++ typeName ++ "Input") ++
        "\" not found in schema. Expected an input type following the convention Update\x7bTypeName\x7dInput.") ∧
    ∃ ty, resolveType schema config typeName = Except.ok ty ∧
      ty.fields = flds ∧ ty.inputFields = [] ∧ ty.editableFields = [] := by
  have hi : buildInputRegistry schema typeName config =
      Except.error ("Input type \"" ++ ("Update" ++ typeName ++ "Input") ++
        "\" not found in schema. Expected an input type following the convention Update\x7bTypeName\x7dInput.") := by
    unfold buildInputRegistry
    show (match schema ("Update" ++ typeName ++ "Input") with
      | none =>
        Except.error ("Input type \"" ++ ("Update" ++ typeName ++ "Input") ++
          "\" not found in schema. Expected an input type following the convention Update\x7bTypeName\x7dInput.")
      | some inputT =>
        Except.ok (buildRegistry inputT
          (some { maxDepth := config.maxDepth, scalarMap := config.scalarMap,
                  nestedTypes := none, labels := none }))) = _
    rw [hmiss]
  refine ⟨hi, ?_⟩
  unfold resolveType
  rw [hreg, hi]
  refine ⟨_, rfl, rfl, rfl, ?_⟩
  show getEditableFields flds [] = []
  unfold getEditableFields
  simp

/-- Witness for C9 at the concrete schema without `UpdateOrderInput`. -/
theorem input_registry_error_and_fallback_witness :
    buildInputRegistry exSchemaScalarOnly "Order" cfg0 =
      Except.error ("Input type \"" ++ ("Update" ++ "Order" ++ "Input") ++
        "\" not found in schema. Expected an input type following the convention Update\x7bTypeName\x7dInput.") ∧
    ∃ ty, resolveType exSchemaScalarOnly cfg0 "Order" = Except.ok ty ∧
      ty.fields = exScalarFields ∧ ty.inputFields = [] ∧ ty.editableFields = [] := by
  exact input_registry_error_and_fallback exSchemaScalarOnly cfg0 "Order" exScalarFields
    rfl
    (by simp [buildRegistryAsyncM, buildRegistryRecursive, introspectTypeM, resolveField,
      unwrapType, lookupNested, lookupScalar, mergeScalarMap, DEFAULT_SCALAR_MAP,
      applyLabels, capitalize, formatLabel, insertSpaces, childKey, childPath,
      exOrderScalarIntro, exSchemaScalarOnly, cfg0, exScalarFields])

theorem data_append (s t : String) : (s ++ t).data = s.data ++ t.data := rfl

theorem startsWithL_iff :
    ∀ (pat l : List Char), startsWithL l pat = true ↔ ∃ t, l = pat ++ t := by
  intro pat
  induction pat with
  | nil =>
    intro l
    simp [startsWithL]
  | cons d ds ih =>
    intro l
    cases l with
    | nil =>
      simp [startsWithL]
    | cons c cs =>
      rw [show startsWithL (c :: cs) (d :: ds) = (decide (c = d) && startsWithL cs ds) from rfl]
      simp only [Bool.and_eq_true, decide_eq_true_eq, ih]
      constructor
      · rintro ⟨rfl, t, rfl⟩
        exact ⟨t, rfl⟩
      · rintro ⟨t, ht⟩
        cases ht
        exact ⟨rfl, t, rfl⟩

theorem hasSubL_iff :
    ∀ (l pat : List Char), hasSubL l pat = true ↔ ∃ a b, l = a ++ pat ++ b := by
  intro l
  induction l with
  | nil =>
    intro pat
    rw [show hasSubL [] pat = startsWithL [] pat from rfl, startsWithL_iff]
    constructor
    · rintro ⟨t, ht⟩
      exact ⟨[], t, ht⟩
    · rintro ⟨a, b, hab⟩
      rcases List.append_eq_nil.mp hab.symm with ⟨h12, h3⟩
      rcases List.append_eq_nil.mp h12 with ⟨h1, h2⟩
      exact ⟨[], by simp [h2]⟩
  | cons c cs ih =>
    intro pat
    rw [show hasSubL (c :: cs) pat = (startsWithL (c :: cs) pat || hasSubL cs pat) from rfl]
    simp only [Bool.or_eq_true, startsWithL_iff, ih]
    constructor
    · rintro (⟨t, ht⟩ | ⟨a, b, hab⟩)
      · exact ⟨[], t, ht⟩
      · exact ⟨c :: a, b, by rw [hab]; rfl⟩
    · rintro ⟨a, b, hab⟩
      cases a with
      | nil =>
        exact Or.inl ⟨b, by simpa using hab⟩
      | cons a0 a' =>
        refine Or.inr ⟨a', b, ?_⟩
        have := congrArg List.tail hab
        simpa using this

theorem dollarSafe_of_not_mem (l : List Char) (h : '$' ∉ l) : dollarSafe l := by
  intro x y hxy
  exact absurd (by
    rw [hxy]
    exact List.mem_append_right x (List.mem_cons_self _ _)) h

theorem dollarSafe_tail (c : Char) (l : List Char) (h : dollarSafe (c :: l)) :
    dollarSafe l := by
  intro x y hxy
  exact h (c :: x) y (by rw [hxy]; rfl)

theorem dollarSafe_append (a b : List Char) (ha : dollarSafe a) (hb : dollarSafe b) :
    dollarSafe (a ++ b) := by
  induction a with
  | nil => simpa using hb
  | cons c a' ih =>
    intro x y hxy
    cases x with
    | nil =>
      simp only [List.nil_append] at hxy
      have hc : c = '$' := (List.cons.injEq .. ▸ hxy).1
      have hy : a' ++ b = y := (List.cons.injEq .. ▸ hxy).2
      subst hc
      obtain ⟨z, hz⟩ := ha [] a' rfl
      rw [← hy, hz]
      exact ⟨z ++ b, rfl⟩
    | cons x0 x' =>
      have hx : a' ++ b = x' ++ '$' :: y := (List.cons.injEq .. ▸ hxy).2
      exact ih (dollarSafe_tail c a' ha) x' y hx

theorem dollarSafeB_correct :
    ∀ l : List Char, dollarSafeB l = true → dollarSafe l := by
  intro l
  induction l with
  | nil => intro _ x y hxy; cases x <;> cases hxy
  | cons c rest ih =>
    intro h x y hxy
    rw [show dollarSafeB (c :: rest) =
        ((if c = '$' then dollarFollows rest else true) && dollarSafeB rest) from rfl,
      Bool.and_eq_true] at h
    cases x with
    | nil =>
      have hc : c = '$' := (List.cons.injEq .. ▸ hxy).1
      have hy : rest = y := (List.cons.injEq .. ▸ hxy).2
      subst hc
      rw [if_pos rfl] at h
      cases rest with
      | nil => cases h.1
      | cons i rest1 =>
        cases rest1 with
        | nil => cases h.1
        | cons n rest2 =>
          have hin := h.1
          rw [show dollarFollows (i :: n :: rest2) =
              (decide (i = 'i') && decide (n = 'n')) from rfl,
            Bool.and_eq_true, decide_eq_true_eq, decide_eq_true_eq] at hin
          rw [← hy, hin.1, hin.2]
          exact ⟨rest2, rfl⟩
    | cons x0 x' =>
      have hx : rest = x' ++ '$' :: y := (List.cons.injEq .. ▸ hxy).2
      exact ih h.2 x' y hx

theorem no_dollar_id_of_dollarSafe (l : List Char) (h : dollarSafe l) :
    hasSubL l ('$' :: 'i' :: 'd' :: []) = false := by
  cases hv : hasSubL l ('$' :: 'i' :: 'd' :: []) with
  | false => rfl
  | true =>
    exfalso
    obtain ⟨a, b, hab⟩ := (hasSubL_iff l _).mp hv
    obtain ⟨z, hz⟩ := h a ('i' :: 'd' :: b) (by rw [hab, List.append_assoc]; rfl)
    simp at hz

/- ### Character-content lemmas for the builders -/

theorem breakAtDot_decomp :
    ∀ (l a b : List Char), breakAtDot l = some (a, b) → l = a ++ '.' :: b := by
  intro l
  induction l with
  | nil => intro a b h; cases h
  | cons c rest ih =>
    intro a b h
    by_cases hc : c = '.'
    · rw [breakAtDot, if_pos hc] at h
      cases h
      rw [hc]
      rfl
    · rw [breakAtDot, if_neg hc] at h
      cases hb : breakAtDot rest with
      | none => rw [hb] at h; cases h
      | some p =>
        rw [hb] at h
        cases h
        rw [ih p.1 p.2 (by rw [hb])]
        rfl

theorem splitFirstDot_chars (p : String) (q : String × String)
    (h : splitFirstDot p = some q) :
    p.data = q.1.data ++ '.' :: q.2.data := by
  unfold splitFirstDot at h
  cases hb : breakAtDot p.data with
  | none => rw [hb] at h; cases h
  | some pr =>
    rw [hb] at h
    cases h
    exact breakAtDot_decomp p.data pr.1 pr.2 (by rw [hb])

theorem capitalize_create_data (t : String) :
    (capitalize ("create" ++ t)).data =
      'C' :: 'r' :: 'e' :: 'a' :: 't' :: 'e' :: t.data := by
  have hd : ("create" ++ t).data = 'c' :: 'r' :: 'e' :: 'a' :: 't' :: 'e' :: t.data := rfl
  unfold capitalize
  rw [hd]
  rfl

theorem joinSep_dollarFree (sep : String) (hsep : '$' ∉ sep.data) :
    ∀ l : List String, (∀ x ∈ l, '$' ∉ x.data) → '$' ∉ (joinSep sep l).data := by
  intro l
  induction l with
  | nil => intro _; simp [joinSep]
  | cons x rest ih =>
    intro h
    cases rest with
    | nil => exact h x (List.mem_cons_self _ _)
    | cons y rest' =>
      rw [show joinSep sep (x :: y :: rest') = x ++ sep ++ joinSep sep (y :: rest') from rfl,
        data_append, data_append]
      intro hm
      rcases List.mem_append.mp hm with h1 | h1
      · rcases List.mem_append.mp h1 with h2 | h2
        · exact h x (List.mem_cons_self _ _) h2
        · exact hsep h2
      · exact ih (fun z hz => h z (List.mem_cons_of_mem x hz)) h1

theorem selPairs_chars (paths : List String) (h : ∀ p ∈ paths, '$' ∉ p.data) :
    ∀ q ∈ selPairs paths, '$' ∉ q.1.data ∧ '$' ∉ q.2.data := by
  intro q hq
  obtain ⟨p, hp, hsp⟩ := List.mem_filterMap.mp hq
  have hchars := splitFirstDot_chars p q hsp
  have hfree := h p hp
  rw [hchars] at hfree
  constructor
  · intro hm
    exact hfree (List.mem_append_left _ hm)
  · intro hm
    exact hfree (List.mem_append_right _ (List.mem_cons_of_mem _ hm))

theorem buildSelectionSet_dollarFree (paths : List String)
    (h : ∀ p ∈ paths, '$' ∉ p.data) :
    ∀ s ∈ buildSelectionSet paths, '$' ∉ s.data := by
  intro s hs
  rw [buildSelectionSet_spec] at hs
  rcases List.mem_append.mp hs with hr | hg
  · exact h s (List.mem_filter.mp hr).1
  · obtain ⟨g, hgmem, hrender⟩ := List.mem_map.mp hg
    unfold selGroups groupsOf at hgmem
    obtain ⟨par, hpar, hge⟩ := List.mem_map.mp hgmem
    have hg1 : g.1 = par := by rw [← hge]
    have hg2 : g.2 = ((selPairs paths).filter (fun q => q.1 = par)).map Prod.snd := by
      rw [← hge]
    have hparmem : par ∈ (selPairs paths).map Prod.fst := (mem_firstDedup _ _).mp hpar
    obtain ⟨q0, hq0, hq0e⟩ := List.mem_map.mp hparmem
    have hparfree : '$' ∉ par.data := by
      rw [← hq0e]
      exact (selPairs_chars paths h q0 hq0).1
    have hchildfree : ∀ c ∈ g.2, '$' ∉ c.data := by
      rw [hg2]
      intro c hc
      obtain ⟨q1, hq1, hq1e⟩ := List.mem_map.mp hc
      rw [← hq1e]
      exact (selPairs_chars paths h q1 (List.mem_filter.mp hq1).1).2
    rw [← hrender]
    unfold renderGroup
    rw [hg1, data_append, data_append, data_append]
    intro hm
    rcases List.mem_append.mp hm with h1 | h1
    · rcases List.mem_append.mp h1 with h2 | h2
      · rcases List.mem_append.mp h2 with h3 | h3
        · exact hparfree h3
        · exact absurd h3 (by decide)
      · exact joinSep_dollarFree " " (by decide) g.2 hchildfree h2
    · exact absurd h1 (by decide)

/- ### Claim C5: the update/create mutation builders -/

/-- Claim C5 (amended): `buildUpdateMutation` declares exactly the variables
`$id: ID!` and `$input: <InputType>!` (input type defaulting to
`Update<TypeName>Input`) and calls the mutation with `(id: $id, input:
$input)`; `buildCreateMutation` is identical except that it omits the `$id`
variable and the `id:` argument entirely, so — provided neither the type
name nor any return field's `graphqlPath` contains a `'$'` character — the
substring `"$id"` never occurs in `buildCreateMutation`'s output. -/
theorem mutation_builders_id_handling :
    (∀ (t : String) (fs : List FieldDefinition),
      buildUpdateMutation t fs none =
        "mutation " ++ capitalize ("update" ++ t) ++ "($id: ID!, $input: " ++
          (capitalize "update" ++ t ++ "Input") ++ "!) \x7b\n  " ++ ("update" ++ t) ++
          "(id: $id, input: $input) \x7b\n    " ++
          joinSep "\n    " (buildSelectionSet ("id" :: fs.map (fun f => f.graphqlPath))) ++
          "\n  \x7d\n\x7d") ∧
    (∀ (t : String) (fs : List FieldDefinition),
      buildCreateMutation t fs none =
        "mutation " ++ capitalize ("create" ++ t) ++ "($input: " ++
          (capitalize "create" ++ t ++ "Input") ++ "!) \x7b\n  " ++ ("create" ++ t) ++
          "(input: $input) \x7b\n    " ++
          joinSep "\n    " (buildSelectionSet ("id" :: fs.map (fun f => f.graphqlPath))) ++
          "\n  \x7d\n\x7d") ∧
    (∀ (t : String) (fs : List FieldDefinition),
      '$' ∉ t.data → (∀ f ∈ fs, '$' ∉ f.graphqlPath.data) →
      hasSubstr (buildCreateMutation t fs none) "$id" = false) := by
  refine ⟨fun t fs => rfl, fun t fs => rfl, ?_⟩
  intro t fs ht hf
  unfold hasSubstr
  rw [show ("$id" : String).data = ('$' :: 'i' :: 'd' :: []) from rfl]
  apply no_dollar_id_of_dollarSafe
  have hfree : ∀ p ∈ ("id" :: fs.map (fun f => f.graphqlPath)), '$' ∉ p.data := by
    intro p hp
    rcases List.mem_cons.mp hp with he | hm
    · subst he
      decide
    · obtain ⟨f, hfm, hfe⟩ := List.mem_map.mp hm
      rw [← hfe]
      exact hf f hfm
  have d1 : dollarSafe ("mutation " : String).data := dollarSafeB_correct _ rfl
  have d2 : dollarSafe (capitalize ("create" ++ t)).data := by
    rw [capitalize_create_data]
    apply dollarSafe_of_not_mem
    intro hmem
    simp only [List.mem_cons] at hmem
    rcases hmem with h1 | h1 | h1 | h1 | h1 | h1 | h1
    · cases h1
    · cases h1
    · cases h1
    · cases h1
    · cases h1
    · cases h1
    · exact ht h1
  have d3 : dollarSafe ("($input: " : String).data := dollarSafeB_correct _ rfl
  have d4 : dollarSafe (capitalize "create" ++ t ++ "Input").data := by
    apply dollarSafe_of_not_mem
    rw [data_append, data_append]
    intro hmem
    rcases List.mem_append.mp hmem with h1 | h1
    · rcases List.mem_append.mp h1 with h2 | h2
      · exact absurd h2 (by decide)
      · exact ht h2
    · exact absurd h1 (by decide)
  have d5 : dollarSafe ("!) \x7b\n  " : String).data := dollarSafeB_correct _ rfl
  have d6 : dollarSafe ("create" ++ t).data := by
    apply dollarSafe_of_not_mem
    rw [data_append]
    intro hmem
    rcases List.mem_append.mp hmem with h1 | h1
    · exact absurd h1 (by decide)
    · exact ht h1
  have d7 : dollarSafe ("(input: $input) \x7b\n    " : String).data := dollarSafeB_correct _ rfl
  have d8 : dollarSafe (joinSep "\n    "
      (buildSelectionSet ("id" :: fs.map (fun f => f.graphqlPath)))).data :=
    dollarSafe_of_not_mem _
      (joinSep_dollarFree "\n    " (by decide) _ (buildSelectionSet_dollarFree _ hfree))
  have d9 : dollarSafe ("\n  \x7d\n\x7d" : String).data := dollarSafeB_correct _ rfl
  rw [show buildCreateMutation t fs none =
      "mutation " ++ capitalize ("create" ++ t) ++ "($input: " ++
        (capitalize "create" ++ t ++ "Input") ++ "!) \x7b\n  " ++ ("create" ++ t) ++
        "(input: $input) \x7b\n    " ++
        joinSep "\n    " (buildSelectionSet ("id" :: fs.map (fun f => f.graphqlPath))) ++
        "\n  \x7d\n\x7d" from rfl]
  simp only [data_append]
  exact dollarSafe_append _ _ (dollarSafe_append _ _ (dollarSafe_append _ _
    (dollarSafe_append _ _ (dollarSafe_append _ _ (dollarSafe_append _ _
      (dollarSafe_append _ _ (dollarSafe_append _ _ d1 d2) d3) d4) d5) d6) d7) d8) d9

/-- Counterexample to C5 as stated: a return field whose `graphqlPath`
literally contains `"$id"` makes that substring appear in
`buildCreateMutation`'s output, so the universal claim over all
`returnFields` fails. -/
theorem buildCreateMutation_dollar_id_from_path :
    hasSubstr
      (buildCreateMutation "Order"
        [{ key := "x", label := "X", graphqlPath := "$id", type := FieldType.string }] none)
      "$id" = true := rfl

/-- Witness for C5 at a `'$'`-free type name and field list. -/
theorem mutation_builders_id_handling_witness :
    hasSubstr (buildCreateMutation "Order" wFieldsStatus none) "$id" = false := by
  exact (mutation_builders_id_handling).2.2 "Order" wFieldsStatus (by decide) (by decide)

end GqlDrift

